import Mathlib

/-!
Verification of dbt-fusion-otel-forwarder (Go) against its specification.

The Lean definitions below are a shallow embedding of the Go sources:
  - app/decoder.go   : Decoder, DecodeLines, buildSpan, sorting and attribute helpers
  - app/app.go       : App.Run exit-code behaviour
  - app/forwarder.go : attributeModifier.Apply
  - app/exporter.go  : MultiplexExporter operations

Go `map[string]any` values parsed from JSON lines are modelled as association
lists `List (String × JVal)`; a Go map has unique keys and nondeterministic
iteration order, which the decoder neutralises by sorting keys before use
(convertAttributesFromMap / jsonValueToKeyValue), exactly as modelled here.
JSON numbers (Go float64) are modelled as integers: no claim depends on
fractional values, only on numbers being passed through or truncated.
`uint64` timestamps are modelled as `Nat` (parseNano rejects values ≥ 2^64,
as fmt.Sscan does on overflow).  The ambient clock used by the
`parseNano(start, time.Now())` fallback is passed to `DecodeLines` as an
explicit `now : Nat` argument.
-/

namespace App

/-! ## Generic bubble sort

The repository sorts spans, logs and attribute keys with three hand-written
bubble sorts of identical shape (decoder.go, sortSpansByStartTime /
sortLogsByTime / sortStrings): an outer loop `i` from `0` to `n-2` and an
inner loop `j` from `0` to `n-i-2` swapping adjacent elements when a
comparator fires.  `bubblePassK swap k l` is one inner-loop sweep performing
at most `k` adjacent comparisons; `bubbleSort` iterates the sweeps with the
same shrinking bounds as the Go loops.
-/

def bubblePass (swap : α → α → Bool) : List α → List α
  | [] => []
  | [a] => [a]
  | a :: b :: t =>
    if swap a b then b :: bubblePass swap (a :: t) else a :: bubblePass swap (b :: t)

def bubblePassK (swap : α → α → Bool) : Nat → List α → List α
  | _, [] => []
  | 0, l => l
  | _ + 1, [a] => [a]
  | k + 1, a :: b :: t =>
    if swap a b then b :: bubblePassK swap k (a :: t) else a :: bubblePassK swap k (b :: t)

def bubbleSortGo (swap : α → α → Bool) : Nat → List α → List α
  | 0, l => l
  | k + 1, l => bubbleSortGo swap k (bubblePassK swap (k + 1) l)

def bubbleSort (swap : α → α → Bool) (l : List α) : List α :=
  bubbleSortGo swap (l.length - 1) l

/-! ## JSON values and OTLP attribute values

`JVal` is the universe of values `encoding/json.Unmarshal` produces for a
JSON document (`map[string]any`): strings, numbers, booleans, null, objects
and arrays.  `AnyValue` mirrors `commonpb.AnyValue`; a `KeyValue` is
`commonpb.KeyValue`.  JSON numbers (Go `float64`) are carried as `Int`.
-/

inductive JVal where
  | str (s : String)
  | num (x : Int)
  | bool (b : Bool)
  | null
  | obj (fields : List (String × JVal))
  | arr (items : List JVal)

inductive AnyValue where
  | str (s : String)
  | double (x : Int)
  | int (n : Int)
  | bool (b : Bool)
  | arr (vs : List AnyValue)
  | kvlist (kvs : List (String × AnyValue))

abbrev KeyValue := String × AnyValue

abbrev JObj := List (String × JVal)

/-- One input line after `json.Unmarshal`: `none` when the line is not a JSON
object (the Go code `continue`s on the unmarshal error), otherwise the parsed
object. -/
abbrev Line := Option JObj

/-- Go map lookup `v, ok := obj[key]` on the association-list model. -/
def jlookup (key : String) : JObj → Option JVal
  | [] => none
  | (k, v) :: rest => if k = key then some v else jlookup key rest

/-- Source `stringFrom`: the field value when present and a string, else `""`. -/
def stringFrom (obj : JObj) (key : String) : String :=
  match jlookup key obj with
  | some (JVal.str s) => s
  | _ => ""

/-- Truncation of an integer to Go `int32` (wrapping; the Go `int32(float64)`
conversion used by `getInt` agrees with this on every in-range value, which is
the only case the repository exercises). -/
def wrapInt32 (n : Int) : Int := (n + 2 ^ 31) % 2 ^ 32 - 2 ^ 31

/-- Source `getInt`: numeric field as `int32`, `0` when absent or non-numeric. -/
def getInt (obj : JObj) (key : String) : Int :=
  match jlookup key obj with
  | some (JVal.num x) => wrapInt32 x
  | _ => 0

/-- The white-space class of fmt's scanner (the `space` table behind
`isSpace` in fmt/print.go); `Sscan` also treats newlines as space, and every
newline code point is inside the table. -/
def goSpace (c : Char) : Bool :=
  let n := c.toNat
  decide ((9 ≤ n ∧ n ≤ 13) ∨ n = 32 ∨ n = 133 ∨ n = 160 ∨ n = 5760 ∨
    (8192 ≤ n ∧ n ≤ 8202) ∨ n = 8232 ∨ n = 8233 ∨ n = 8239 ∨ n = 8287 ∨ n = 12288)

/-- fmt's `binaryDigits` class. -/
def isBinDigit (c : Char) : Bool := c == '0' || c == '1'

/-- fmt's `octalDigits` class. -/
def isOctDigit (c : Char) : Bool := decide (48 ≤ c.toNat ∧ c.toNat ≤ 55)

/-- fmt's `decimalDigits` class. -/
def isDecDigit (c : Char) : Bool := decide (48 ≤ c.toNat ∧ c.toNat ≤ 57)

/-- fmt's `hexadecimalDigits` class (both cases). -/
def isHexDigitGo (c : Char) : Bool :=
  isDecDigit c || decide (97 ≤ c.toNat ∧ c.toNat ≤ 102) ||
    decide (65 ≤ c.toNat ∧ c.toNat ≤ 70)

/-- fmt `ss.scanBasePrefix` followed by `ss.scanNumber` for the `%v` verb:
after an optional leading `0` (itself a digit) and an optional `0b`/`0o`/`0x`
marker, take the maximal run over the selected digit class plus `_`; `none`
when the scanner stops with `expected integer` (first character is neither a
digit of the class nor `_`).  The token keeps the base prefix, exactly as the
scanner's buffer hands it to `strconv.ParseUint` with base `0`. -/
def scanUintToken : List Char → Option (List Char)
  | [] => none
  | '0' :: c :: rest2 =>
    if c == 'b' || c == 'B' then
      some ('0' :: c :: rest2.takeWhile (fun c2 => isBinDigit c2 || c2 == '_'))
    else if c == 'o' || c == 'O' then
      some ('0' :: c :: rest2.takeWhile (fun c2 => isOctDigit c2 || c2 == '_'))
    else if c == 'x' || c == 'X' then
      some ('0' :: c :: rest2.takeWhile (fun c2 => isHexDigitGo c2 || c2 == '_'))
    else some ('0' :: (c :: rest2).takeWhile (fun c2 => isOctDigit c2 || c2 == '_'))
  | ['0'] => some ['0']
  | c :: rest =>
    if isDecDigit c || c == '_' then
      some ((c :: rest).takeWhile (fun c2 => isDecDigit c2 || c2 == '_'))
    else none

/-- One step of `strconv.ParseUint`'s digit loop: the numeric value of a
byte, `none` for a byte that is neither a digit nor a letter. -/
def parseUintDigit (c : Char) : Option Nat :=
  let n := c.toNat
  if 48 ≤ n ∧ n ≤ 57 then some (n - 48)
  else
    let l := n ||| 32
    if 97 ≤ l ∧ l ≤ 122 then some (l - 87)
    else none

/-- Digit loop of `strconv.ParseUint`: underscores are skipped (base `0`
allows them), a digit at least the base is a syntax error, and exceeding
`2^64 - 1` is a range error; both errors surface as `none`. -/
def parseUintLoop (base : Nat) : Nat → List Char → Option Nat
  | n, [] => some n
  | n, c :: rest =>
    if c == '_' then parseUintLoop base n rest
    else
      match parseUintDigit c with
      | none => none
      | some d =>
        if d < base then
          if n * base + d < 2 ^ 64 then parseUintLoop base (n * base + d) rest else none
        else none

/-- Loop of `strconv.underscoreOK` over the number proper.  `saw` encodes the
last character class: `0` for the start of the number, `1` for a digit (or
the base prefix), `2` for an underscore, `3` for anything else. -/
def underscoreLoop (hex : Bool) : Nat → List Char → Bool
  | saw, [] => !(saw == 2)
  | saw, c :: rest =>
    if isDecDigit c ||
        (hex && decide (97 ≤ (c.toNat ||| 32) ∧ (c.toNat ||| 32) ≤ 102)) then
      underscoreLoop hex 1 rest
    else if c == '_' then
      if saw == 1 then underscoreLoop hex 2 rest else false
    else if saw == 2 then false
    else underscoreLoop hex 3 rest

/-- `strconv.underscoreOK`: underscores may only separate digits (a base
prefix counts as a digit). -/
def underscoreOKGo (cs : List Char) : Bool :=
  let cs :=
    match cs with
    | c :: rest => if c == '+' || c == '-' then rest else cs
    | [] => cs
  match cs with
  | '0' :: c :: rest =>
    if c == 'b' || c == 'B' || c == 'o' || c == 'O' then underscoreLoop false 1 rest
    else if c == 'x' || c == 'X' then underscoreLoop true 1 rest
    else underscoreLoop false 0 ('0' :: c :: rest)
  | _ => underscoreLoop false 0 cs

/-- `strconv.ParseUint(tok, 0, 64)`: infer the base from the prefix (a `0b`,
`0o` or `0x` marker needs at least one character after it, else the leading
`0` alone counts as an octal digit), run the digit loop, and enforce
underscore placement; `none` on empty input or any syntax or range error. -/
def parseUintBase0 (tok : List Char) : Option Nat :=
  match tok with
  | [] => none
  | _ =>
    let bd : Nat × List Char :=
      match tok with
      | '0' :: c :: rest =>
        if (c == 'b' || c == 'B') && ¬ rest.isEmpty then (2, rest)
        else if (c == 'o' || c == 'O') && ¬ rest.isEmpty then (8, rest)
        else if (c == 'x' || c == 'X') && ¬ rest.isEmpty then (16, rest)
        else (8, c :: rest)
      | '0' :: rest => (8, rest)
      | _ => (10, tok)
    match parseUintLoop bd.1 0 bd.2 with
    | none => none
    | some n => if underscoreOKGo tok then some n else none

/-- Semantics of `fmt.Sscan(val, &n)` for a `uint64` operand (fmt `scanUint`
with the `%v` verb): skip white space, scan a base-prefixed token, and parse
it with `strconv.ParseUint(tok, 0, 64)`; `none` whenever the scan or the
parse errors (all-space input, no digit where one is required, a digit
outside the base, a misplaced underscore, or overflow past `2^64 - 1`), in
which case `fmt.Sscan` reports the error to `parseNano`.  Input past the
scanned token is ignored, as `Sscan` with a single operand ignores it. -/
def parseUint64 (val : String) : Option Nat :=
  match scanUintToken (val.toList.dropWhile goSpace) with
  | none => none
  | some tok => parseUintBase0 tok

/-- Source `parseNano`: scan a `uint64`, falling back on scan failure. -/
def parseNano (val : String) (fallback : Nat) : Nat :=
  match parseUint64 val with
  | some n => n
  | none => fallback

def hexDigit (c : Char) : Option Nat :=
  let n := c.toNat
  if 48 ≤ n ∧ n ≤ 57 then some (n - 48)
  else if 97 ≤ n ∧ n ≤ 102 then some (n - 87)
  else if 65 ≤ n ∧ n ≤ 70 then some (n - 55)
  else none

def hexDecodePairs : List Char → Option (List Nat)
  | [] => some []
  | [_] => none
  | c1 :: c2 :: rest =>
    match hexDigit c1, hexDigit c2, hexDecodePairs rest with
    | some hi, some lo, some bs => some ((16 * hi + lo) :: bs)
    | _, _, _ => none

/-- Source `decodeHex`: bytes of a hex string, `nil` (here `[]`) for the empty
string or a malformed one. -/
def decodeHex (s : String) : List Nat :=
  if s = "" then []
  else
    match hexDecodePairs s.toList with
    | some bs => bs
    | none => []

/-- Source `compareBytes`: lexicographic comparison of byte slices, first
differing byte decides, then length. -/
def compareBytes : List Nat → List Nat → Int
  | [], [] => 0
  | [], _ :: _ => -1
  | _ :: _, [] => 1
  | a :: ta, b :: tb => if a < b then -1 else if b < a then 1 else compareBytes ta tb

/-- Swap condition of the `sortStrings` bubble sort: `strs[j] > strs[j+1]`. -/
def strSwap (a b : String) : Bool := decide (b < a)

/-- Source `sortStrings` (bubble sort on strings, ascending). -/
def sortStrings (strs : List String) : List String := bubbleSort strSwap strs

/-- Key-sorting of already-converted `KeyValue` pairs.  The source sorts the
raw map keys with `sortStrings` and then converts `obj[k]` for each key in
sorted order; since a Go map has unique keys, converting each entry first and
then bubble-sorting the pairs by key yields the same list. -/
def sortKVsByKey (kvs : List KeyValue) : List KeyValue :=
  bubbleSort (fun a b => strSwap a.1 b.1) kvs

/-- Source `jsonValueToKeyValue` value part: JSON value to `AnyValue`; nested
objects become key-sorted `kvlist`s, arrays convert elementwise, and any other
value (only `null` remains in this model) falls back to `fmt.Sprintf`. -/
def jsonToAny : JVal → AnyValue
  | JVal.str s => AnyValue.str s
  | JVal.num x => AnyValue.double x
  | JVal.bool b => AnyValue.bool b
  | JVal.null => AnyValue.str "<nil>"
  | JVal.arr items => AnyValue.arr (items.attach.map (fun v => jsonToAny v.1))
  | JVal.obj fields =>
    AnyValue.kvlist (sortKVsByKey (fields.attach.map (fun kv => (kv.1.1, jsonToAny kv.1.2))))
termination_by v => sizeOf v
decreasing_by
  · have h := List.sizeOf_lt_of_mem v.2
    simp only [JVal.arr.sizeOf_spec]
    omega
  · have h := List.sizeOf_lt_of_mem kv.2
    have h2 : sizeOf kv.1.2 < sizeOf kv.1 := by
      rcases kv with ⟨⟨a, b⟩, hk⟩
      simp
    simp only [JVal.obj.sizeOf_spec]
    omega

def jsonValueToKeyValue (key : String) (value : JVal) : KeyValue := (key, jsonToAny value)

/-- Source `convertAttributesFromMap`: convert a JSON object to `KeyValue`s in
ascending key order. -/
def convertAttributesFromMap (obj : JObj) : List KeyValue :=
  sortKVsByKey (obj.map (fun kv => jsonValueToKeyValue kv.1 kv.2))

/-! ## Decoder data model (decoder.go) -/

def STATUS_CODE_UNSET : Int := 0

def STATUS_CODE_OK : Int := 1

def STATUS_CODE_ERROR : Int := 2

structure SpanEvent where
  name : String
  timeUnixNano : Nat
  attributes : List KeyValue

structure SpanStatus where
  code : Int
  message : String

structure Span where
  name : String
  traceId : List Nat
  spanId : List Nat
  parentSpanId : List Nat
  startTimeUnixNano : Nat
  endTimeUnixNano : Nat
  attributes : List KeyValue
  events : List SpanEvent
  status : Option SpanStatus

structure LogRecord where
  timeUnixNano : Nat
  traceId : List Nat
  spanId : List Nat
  severityNumber : Int
  severityText : String
  attributes : List KeyValue
  body : Option AnyValue

/-- Span accumulator of decoder.go (one entry of the span-to-accumulator map);
the source field `end` is spelled `endT` here.  Defaults are the Go zero
values of `&spanPartialZero`. -/
structure PendingSpan where
  traceID : String := ""
  spanID : String := ""
  parent : String := ""
  name : String := ""
  start : Nat := 0
  endT : Nat := 0
  attrs : List KeyValue := []
  events : List SpanEvent := []
  statusCode : Int := 0
  statusMessage : String := ""

/-- Decoder state: cutoff plus the map from span id to its accumulator,
modelled as an association list with unique keys.  The attribute transformer
installed by `NewDecoder` is always `defaultAttributeTransformer`; it is
applied directly at the two call sites below. -/
structure Decoder where
  cutoffTimeNano : Nat
  spanPartials : List (String × PendingSpan)

def NewDecoder (cutoffTimeNano : Nat) : Decoder :=
  { cutoffTimeNano := cutoffTimeNano, spanPartials := [] }

def findPartial : List (String × PendingSpan) → String → Option PendingSpan
  | [], _ => none
  | (k, p) :: rest, id => if k = id then some p else findPartial rest id

def setPartial : List (String × PendingSpan) → String → PendingSpan → List (String × PendingSpan)
  | [], id, p => [(id, p)]
  | (k, q) :: rest, id, p =>
    if k = id then (id, p) :: rest else (k, q) :: setPartial rest id p

def removePartial (m : List (String × PendingSpan)) (id : String) : List (String × PendingSpan) :=
  m.filter (fun kv => kv.1 != id)

/-- Source `deduplicateAttributes` loop with its `seen` set made explicit. -/
def dedupSeen (seen : List String) : List KeyValue → List KeyValue
  | [] => []
  | kv :: rest =>
    if seen.contains kv.1 then dedupSeen seen rest
    else kv :: dedupSeen (kv.1 :: seen) rest

/-- Source `deduplicateAttributes`: drop every attribute whose key was already
seen earlier in the list (first occurrence wins). -/
def deduplicateAttributes (attrs : List KeyValue) : List KeyValue :=
  dedupSeen [] attrs

def charsLeadWith : List Char → List Char → Bool
  | [], _ => true
  | _ :: _, [] => false
  | a :: ta, b :: tb => a == b && charsLeadWith ta tb

/-- Semantics of `strings.HasPrefix(s, pre)`. -/
def strStartsWith (s pre : String) : Bool := charsLeadWith pre.toList s.toList

/-- Source `defaultAttributeTransformer`: rename `sql` to `db.statement` and
prepend `dbt.` to every other key unless it already starts with `dbt.`. -/
def defaultAttributeTransformer (attrs : List KeyValue) : List KeyValue :=
  attrs.map (fun attr =>
    let key := attr.1
    let key :=
      if key = "sql" then "db.statement"
      else if ¬ strStartsWith key ("dbt.") then "dbt." ++ key
      else key
    (key, attr.2))

/-- Source `extractAttributes`: convert the nested `attributes` object (when
present) appending to the accumulator, then append an `event_type` attribute
when the record carries a non-empty `event_type` field. -/
def extractAttributes (obj : JObj) (attrs : List KeyValue) : List KeyValue :=
  let attrs :=
    match jlookup ("attributes") obj with
    | some (JVal.obj attrsObj) => attrs ++ convertAttributesFromMap attrsObj
    | _ => attrs
  let eventType := stringFrom obj ("event_type")
  if eventType = "" then attrs
  else attrs ++ [("event_type", AnyValue.str eventType)]

/-- Source `extractEvents`: span events from the `events` array; non-object
items are skipped. -/
def extractEvents (obj : JObj) : List SpanEvent :=
  match jlookup ("events") obj with
  | some (JVal.arr items) =>
    items.filterMap (fun item =>
      match item with
      | JVal.obj eventObj =>
        let timeStr := stringFrom eventObj ("time_unix_nano")
        some
          { name := stringFrom eventObj ("name")
            timeUnixNano := if timeStr = "" then 0 else parseNano timeStr 0
            attributes :=
              match jlookup ("attributes") eventObj with
              | some (JVal.obj attrsObj) => convertAttributesFromMap attrsObj
              | _ => [] }
      | _ => none)
  | _ => []

/-- Source `buildSpan`: `none` exactly when no start time is known; otherwise
the complete span with deduplicated attributes, the end time defaulted to the
start time, and a status attached when a status code was set. -/
def buildSpan (p : PendingSpan) : Option Span :=
  if p.start = 0 then none
  else
    let span : Span :=
      { name := p.name
        traceId := decodeHex p.traceID
        spanId := decodeHex p.spanID
        parentSpanId := decodeHex p.parent
        startTimeUnixNano := p.start
        endTimeUnixNano := p.endT
        attributes := deduplicateAttributes p.attrs
        events := p.events
        status := none }
    let span :=
      if span.endTimeUnixNano = 0 then { span with endTimeUnixNano := span.startTimeUnixNano }
      else span
    let span :=
      if p.statusCode ≠ STATUS_CODE_UNSET then
        { span with status := some { code := p.statusCode, message := p.statusMessage } }
      else span
    some span

/-- First `exception.message` attribute holding a string value, scanning the
way the source loop (match on key, then type-assert, else keep looking) does. -/
def findExceptionMessage : List KeyValue → Option String
  | [] => none
  | (k, v) :: rest =>
    if k = "exception.message" then
      match v with
      | AnyValue.str s => some s
      | _ => findExceptionMessage rest
    else findExceptionMessage rest

/-- SpanEnd step `Check for exception events and set ERROR status`: on the
first event named `exception`, raise an unset status code to error and take a
missing status message from the event. -/
def applyExceptionStatus (p : PendingSpan) : PendingSpan :=
  match p.events.find? (fun ev => ev.name == "exception") with
  | none => p
  | some ev =>
    let p :=
      if p.statusCode = STATUS_CODE_UNSET then { p with statusCode := STATUS_CODE_ERROR } else p
    if p.statusMessage = "" then
      match findExceptionMessage ev.attributes with
      | some msg => { p with statusMessage := msg }
      | none => p
    else p

/-- An ASCII single-quote character, used by the composed exception messages. -/
def quoteChar : String := (Char.ofNat 39).toString

/-- SpanEnd step `Check for test failure in node_test_detail`: synthesize an
`exception` event and error status when the nested test outcome is the failed
sentinel. -/
def applyTestFailure (p : PendingSpan) (attrsObj : JObj) : PendingSpan :=
  match jlookup ("node_test_detail") attrsObj with
  | some (JVal.obj testDetail) =>
    if stringFrom testDetail ("test_outcome") = "TEST_OUTCOME_FAILED" then
      let failingRows := getInt testDetail ("failing_rows")
      let uniqueID := stringFrom attrsObj ("unique_id")
      let exceptionMsg :=
        if uniqueID = "" then "Test failed with " ++ toString failingRows ++ " failing rows"
        else
          "Test " ++ quoteChar ++ uniqueID ++ quoteChar ++ " failed with " ++
            toString failingRows ++ " failing rows"
      let exceptionAttrs : List KeyValue :=
        [("exception.type", AnyValue.str ("dbt.TestFailure")),
          ("exception.message", AnyValue.str exceptionMsg)]
      let exceptionAttrs :=
        if failingRows > 0 then
          exceptionAttrs ++ [("dbt.test.failing_rows", AnyValue.int failingRows)]
        else exceptionAttrs
      let p :=
        { p with
          events :=
            p.events ++ [({ name := "exception", timeUnixNano := p.endT, attributes := exceptionAttrs } : SpanEvent)] }
      let p := { p with statusCode := STATUS_CODE_ERROR }
      if p.statusMessage = "" then { p with statusMessage := exceptionMsg } else p
    else p
  | _ => p

/-- SpanEnd step `Check for Node Evaluated failure`: synthesize an `exception`
event and error status when `node_outcome` is present and not the success
sentinel. -/
def applyNodeOutcome (p : PendingSpan) (attrsObj : JObj) : PendingSpan :=
  let nodeOutcome := stringFrom attrsObj ("node_outcome")
  if nodeOutcome ≠ "" ∧ nodeOutcome ≠ "NODE_OUTCOME_SUCCESS" then
    let nodeType := stringFrom attrsObj ("node_type")
    let nodeName := stringFrom attrsObj ("name")
    let uniqueID := stringFrom attrsObj ("unique_id")
    let exceptionMsg :=
      if nodeName ≠ "" then
        "Node " ++ quoteChar ++ nodeName ++ quoteChar ++ " evaluation failed (outcome: " ++
          nodeOutcome ++ ")"
      else "Node evaluation failed: " ++ uniqueID ++ " (outcome: " ++ nodeOutcome ++ ")"
    let exceptionAttrs : List KeyValue :=
      [("exception.type", AnyValue.str ("dbt.NodeEvaluationFailure")),
        ("exception.message", AnyValue.str exceptionMsg)]
    let exceptionAttrs :=
      if nodeType ≠ "" then exceptionAttrs ++ [("dbt.node.type", AnyValue.str nodeType)]
      else exceptionAttrs
    let exceptionAttrs :=
      if uniqueID ≠ "" then exceptionAttrs ++ [("dbt.node.unique_id", AnyValue.str uniqueID)]
      else exceptionAttrs
    let exceptionAttrs := exceptionAttrs ++ [("dbt.node.outcome", AnyValue.str nodeOutcome)]
    let p :=
      { p with
        events :=
          p.events ++ [({ name := "exception", timeUnixNano := p.endT, attributes := exceptionAttrs } : SpanEvent)] }
    let p := { p with statusCode := STATUS_CODE_ERROR }
    if p.statusMessage = "" then { p with statusMessage := exceptionMsg } else p
  else p

/-- Timestamp a record is filtered on: `start_time_unix_nano` when present,
else `time_unix_nano`, else `0`. -/
def recordTimeNano (obj : JObj) : Nat :=
  let s1 := stringFrom obj ("start_time_unix_nano")
  if s1 ≠ "" then parseNano s1 0
  else
    let s2 := stringFrom obj ("time_unix_nano")
    if s2 ≠ "" then parseNano s2 0 else 0

/-- Shared head of the SpanStart/SpanEnd branch: record the span id and merge
in a non-empty trace id and parent id. -/
def mergeIds (p : PendingSpan) (obj : JObj) (spanID : String) : PendingSpan :=
  let p := { p with spanID := spanID }
  let traceID := stringFrom obj ("trace_id")
  let p := if traceID ≠ "" then { p with traceID := traceID } else p
  let parent := stringFrom obj ("parent_span_id")
  if parent ≠ "" then { p with parent := parent } else p

/-- SpanStart merge: name, start time (clock fallback on unscannable input),
attributes and events. -/
def spanStartMerge (p : PendingSpan) (obj : JObj) (now : Nat) : PendingSpan :=
  let nm := stringFrom obj ("span_name")
  let p := if nm ≠ "" then { p with name := nm } else p
  let st := stringFrom obj ("start_time_unix_nano")
  let p := if st ≠ "" then { p with start := parseNano st now } else p
  let p := { p with attrs := extractAttributes obj p.attrs }
  { p with events := p.events ++ extractEvents obj }

/-- SpanEnd merge: end time (defaulting to the known start), attributes,
events and the `status` object's code/message. -/
def spanEndMerge (p : PendingSpan) (obj : JObj) : PendingSpan :=
  let et := stringFrom obj ("end_time_unix_nano")
  let p := if et ≠ "" then { p with endT := parseNano et p.start } else p
  let p := { p with attrs := extractAttributes obj p.attrs }
  let p := { p with events := p.events ++ extractEvents obj }
  match jlookup ("status") obj with
  | some (JVal.obj statusObj) =>
    let code := getInt statusObj ("code")
    let p := if code > 0 then { p with statusCode := code } else p
    let msg := stringFrom statusObj ("message")
    if msg ≠ "" then { p with statusMessage := msg } else p
  | _ => p

/-- The two failure-synthesis steps run under the record's `attributes`
object (test failure first, then node outcome), as in decoder.go. -/
def applyFailureSynthesis (p : PendingSpan) (obj : JObj) : PendingSpan :=
  match jlookup ("attributes") obj with
  | some (JVal.obj attrsObj) => applyNodeOutcome (applyTestFailure p attrsObj) attrsObj
  | _ => p

/-- SpanStart and SpanEnd branches of the `DecodeLines` switch, acting on the
span-accumulator map (the only decoder state they read or write).  `now` is
the wall clock read by the `parseNano(start, time.Now())` fallback. -/
def processSpanRecord (ps : List (String × PendingSpan)) (now : Nat) (obj : JObj)
    (isStart : Bool) : List (String × PendingSpan) × List Span :=
  let spanID := stringFrom obj ("span_id")
  if spanID = "" then (ps, [])
  else
    let p := mergeIds ((findPartial ps spanID).getD {}) obj spanID
    if isStart then (setPartial ps spanID (spanStartMerge p obj now), [])
    else
      let p := applyFailureSynthesis (applyExceptionStatus (spanEndMerge p obj)) obj
      let parts := setPartial ps spanID p
      if p.start > 0 then
        match buildSpan p with
        | some span =>
          (removePartial parts spanID,
            [{ span with attributes := defaultAttributeTransformer span.attributes }])
        | none => (parts, [])
      else (parts, [])

/-- LogRecord branch of the `DecodeLines` switch: requires both ids, applies
the default attribute transformer, keeps the body only when non-empty. -/
def processLogRecord (obj : JObj) (logTimeNano : Nat) : List LogRecord :=
  let traceID := stringFrom obj ("trace_id")
  let spanID := stringFrom obj ("span_id")
  if traceID = "" ∨ spanID = "" then []
  else
    let body := stringFrom obj ("body")
    [{ timeUnixNano := logTimeNano
       traceId := decodeHex traceID
       spanId := decodeHex spanID
       severityNumber := getInt obj ("severity_number")
       severityText := stringFrom obj ("severity_text")
       attributes := defaultAttributeTransformer (extractAttributes obj [])
       body := if body = "" then none else some (AnyValue.str body) }]

/-- One iteration of the `DecodeLines` loop: skip unparsable lines, records
without a `record_type`, and records caught by the cutoff filter; otherwise
dispatch on the record tag (unknown tags fall through doing nothing). -/
def processLine (d : Decoder) (now : Nat) (line : Line) :
    Decoder × List Span × List LogRecord :=
  match line with
  | none => (d, [], [])
  | some obj =>
    let recordType := stringFrom obj ("record_type")
    if recordType = "" then (d, [], [])
    else
      let logTimeNano := recordTimeNano obj
      if 0 < logTimeNano ∧ logTimeNano < d.cutoffTimeNano then (d, [], [])
      else if recordType = "SpanStart" ∨ recordType = "SpanEnd" then
        let r := processSpanRecord d.spanPartials now obj (recordType = "SpanStart")
        ({ d with spanPartials := r.1 }, r.2, [])
      else if recordType = "LogRecord" then (d, [], processLogRecord obj logTimeNano)
      else (d, [], [])

/-- Swap condition shared by `sortSpansByStartTime` and `sortLogsByTime`:
swap on strictly larger time, or on equal times and strictly larger span-id
bytes. -/
def timeIdSwap (t : α → Nat) (idb : α → List Nat) (a b : α) : Bool :=
  if t a > t b then true
  else if t a = t b then decide (compareBytes (idb a) (idb b) > 0)
  else false

/-- Source `sortSpansByStartTime` (bubble sort). -/
def sortSpansByStartTime (spans : List Span) : List Span :=
  bubbleSort (timeIdSwap Span.startTimeUnixNano Span.spanId) spans

/-- Source `sortLogsByTime` (bubble sort). -/
def sortLogsByTime (logs : List LogRecord) : List LogRecord :=
  bubbleSort (timeIdSwap LogRecord.timeUnixNano LogRecord.spanId) logs

/-- The `DecodeLines` main loop over all lines, before the final sorting. -/
def processAll (d : Decoder) (now : Nat) : List Line → Decoder × List Span × List LogRecord
  | [] => (d, [], [])
  | line :: rest =>
    let r := processLine d now line
    let rr := processAll r.1 now rest
    (rr.1, r.2.1 ++ rr.2.1, r.2.2 ++ rr.2.2)

/-- Source `Decoder.DecodeLines`: process every line, then sort span and log
outputs (the Go method also returns an error, which is always nil). -/
def DecodeLines (d : Decoder) (now : Nat) (lines : List Line) :
    Decoder × List Span × List LogRecord :=
  let r := processAll d now lines
  (r.1, sortSpansByStartTime r.2.1, sortLogsByTime r.2.2)

/-- Successive `DecodeLines` calls on one decoder (the flush loop in app.go),
with the per-call outputs concatenated. -/
def DecodeChunks (d : Decoder) (now : Nat) : List (List Line) → Decoder × List Span × List LogRecord
  | [] => (d, [], [])
  | c :: rest =>
    let r := DecodeLines d now c
    let rr := DecodeChunks r.1 now rest
    (rr.1, r.2.1 ++ rr.2.1, r.2.2 ++ rr.2.2)

/-! ## App.Run exit behaviour (app.go lines 133-217)

`Run` spawns tail and upload workers whose failures are only logged, runs the
wrapped command, waits for the workers bounded by the flush timeout, and then
computes the exit code from the command result alone: `1` when no target
command was given (line 136) or when `cmd.Run` failed with anything other
than an `exec.ExitError` (line 212, the command could not be started), the
`ExitError` code when the command ran and exited non-zero (line 209), and `0`
when `cmd.Run` returned nil (line 216).  The telemetry-side conditions are
made explicit parameters so independence from them is a statement, not a
convention. -/

inductive CmdOutcome where
  | startFailed
  | exited (code : Int)

structure TelemetryConditions where
  exporterConfigured : Bool
  exporterReachable : Bool
  uploadErrored : Bool
  drainTimedOut : Bool

def RunExitCode (targetCmd : List String) (outcome : CmdOutcome) (tel : TelemetryConditions) : Int :=
  if targetCmd.isEmpty then 1
  else
    match outcome with
    | CmdOutcome.startFailed => 1
    | CmdOutcome.exited code => code

/-! ## Attribute modifier engine (forwarder.go lines 224-291)

A compiled CEL program is modelled as a function from the evaluation object to
`Except String JVal` (the cel-go engine itself is an external collaborator;
`out.Value()` lands in the same dynamic-value universe as parsed JSON).  The
attribute map `map[string]any` is an association list with unique keys;
`mapSet` overwrites in place or appends, `mapDelete` removes the key. -/

structure AttributeModifier (α : Type) where
  action : String
  whenProg : Option (α → Except String JVal)
  key : String
  value : JVal
  valueProg : Option (α → Except String JVal)

def mapSet (attrs : List (String × JVal)) (key : String) (v : JVal) : List (String × JVal) :=
  match attrs with
  | [] => [(key, v)]
  | (k, w) :: rest => if k = key then (key, v) :: rest else (k, w) :: mapSet rest key v

def mapDelete (attrs : List (String × JVal)) (key : String) : List (String × JVal) :=
  match attrs with
  | [] => []
  | (k, w) :: rest => if k = key then mapDelete rest key else (k, w) :: mapDelete rest key

def mapGet (attrs : List (String × JVal)) (key : String) : Option JVal :=
  match attrs with
  | [] => none
  | (k, w) :: rest => if k = key then some w else mapGet rest key

/-- Action part of `attributeModifier.Apply`: `remove` deletes the key; any
other action computes the value (expression result, surfacing an evaluation
error with the map unchanged, or the configured literal) and assigns it. -/
def applyAction (m : AttributeModifier α) (obj : α) (attrs : List (String × JVal)) :
    List (String × JVal) × Option String :=
  if m.action = "remove" then (mapDelete attrs m.key, none)
  else
    match m.valueProg with
    | some prog =>
      match prog obj with
      | Except.error e => (attrs, some e)
      | Except.ok v => (mapSet attrs m.key v, none)
    | none => (mapSet attrs m.key m.value, none)

/-- Source `attributeModifier.Apply`: evaluate the optional condition first;
an evaluation error returns the attributes unchanged together with the error,
a non-true (or non-boolean) result returns them unchanged without error. -/
def AttributeModifier.Apply (m : AttributeModifier α) (obj : α)
    (attrs : List (String × JVal)) : List (String × JVal) × Option String :=
  match m.whenProg with
  | some prog =>
    match prog obj with
    | Except.error e => (attrs, some e)
    | Except.ok (JVal.bool true) => applyAction m obj attrs
    | Except.ok _ => (attrs, none)
  | none => applyAction m obj attrs

/-- CEL program compiled from the expression `"prefix_" + name` in the span
environment of cel.go (`name` is `span.GetName()`; `+` on strings is
concatenation in CEL). -/
def celPrefixNameProg : Span → Except String JVal :=
  fun sp => Except.ok (JVal.str ("prefix_" ++ sp.name))

/-! ## Multiplex exporter (exporter.go lines 356-494)

Each operation launches one goroutine per wrapped exporter, waits for all of
them (`wg.Wait`), drains the error channel and combines the collected errors
with `errors.Join`, returning nil when none failed.  Exporters are modelled
with explicit invocation traces (`startCalls`, `receivedTraces`, ...) and
per-operation behaviours; batches are opaque `Nat` identifiers.  The dispatch
is modelled sequentially in exporter order: which exporters are invoked and
which errors are collected is independent of goroutine scheduling (only the
aggregation order is not, and no claim depends on it). -/

structure MExporter where
  startErr : Option String
  stopErr : Option String
  uploadLogsErr : Nat → Option String
  uploadTracesErr : Nat → Option String
  startCalls : Nat := 0
  stopCalls : Nat := 0
  receivedLogs : List Nat := []
  receivedTraces : List Nat := []

/-- Fan out one operation to every exporter, collecting the updated exporters
and every error produced. -/
def multiplexRun (op : MExporter → MExporter × Option String) :
    List MExporter → List MExporter × List String
  | [] => ([], [])
  | e :: rest =>
    let r := op e
    let rr := multiplexRun op rest
    (r.1 :: rr.1, r.2.toList ++ rr.2)

/-- Behaviour of `errors.Join`: nil when no error was collected, otherwise the
combined (non-empty) list. -/
def joinErrors (errs : List String) : Option (List String) :=
  if errs.isEmpty then none else some errs

def startOp (e : MExporter) : MExporter × Option String :=
  ({ e with startCalls := e.startCalls + 1 }, e.startErr)

def stopOp (e : MExporter) : MExporter × Option String :=
  ({ e with stopCalls := e.stopCalls + 1 }, e.stopErr)

def uploadLogsOp (batch : Nat) (e : MExporter) : MExporter × Option String :=
  ({ e with receivedLogs := e.receivedLogs ++ [batch] }, e.uploadLogsErr batch)

def uploadTracesOp (batch : Nat) (e : MExporter) : MExporter × Option String :=
  ({ e with receivedTraces := e.receivedTraces ++ [batch] }, e.uploadTracesErr batch)

def MultiplexExporter.Start (exps : List MExporter) : List MExporter × Option (List String) :=
  let r := multiplexRun startOp exps
  (r.1, joinErrors r.2)

def MultiplexExporter.Stop (exps : List MExporter) : List MExporter × Option (List String) :=
  let r := multiplexRun stopOp exps
  (r.1, joinErrors r.2)

def MultiplexExporter.UploadLogs (exps : List MExporter) (batch : Nat) :
    List MExporter × Option (List String) :=
  let r := multiplexRun (uploadLogsOp batch) exps
  (r.1, joinErrors r.2)

def MultiplexExporter.UploadTraces (exps : List MExporter) (batch : Nat) :
    List MExporter × Option (List String) :=
  let r := multiplexRun (uploadTracesOp batch) exps
  (r.1, joinErrors r.2)

/-! ## Specification-side vocabulary for the claims -/

/-- Pairwise-sorted check (`Chain`-shaped, Bool-valued). -/
def chainB (le : α → α → Bool) : List α → Bool
  | [] => true
  | [_] => true
  | a :: b :: t => le a b && chainB le (b :: t)

def strLe (a b : String) : Bool := !(strSwap a b)

/-- Recursive key-sortedness of an `AnyValue`: every `kvlist` in it, at any
depth, lists its keys in ascending order. -/
def deepSorted : AnyValue → Bool
  | AnyValue.kvlist kvs =>
    chainB (fun a b => strLe a.1 b.1) kvs && kvs.attach.all (fun kv => deepSorted kv.1.2)
  | AnyValue.arr vs => vs.attach.all (fun v => deepSorted v.1)
  | _ => true
termination_by v => sizeOf v
decreasing_by
  · have h := List.sizeOf_lt_of_mem kv.2
    have h2 : sizeOf kv.1.2 < sizeOf kv.1 := by
      rcases kv with ⟨⟨a, b⟩, hk⟩
      simp
    simp only [AnyValue.kvlist.sizeOf_spec]
    omega
  · have h := List.sizeOf_lt_of_mem v.2
    simp only [AnyValue.arr.sizeOf_spec]
    omega

/-- The `attributes` object of a record (empty when absent or not an object). -/
def attributesObjOf (obj : JObj) : JObj :=
  match jlookup ("attributes") obj with
  | some (JVal.obj m) => m
  | _ => []

/-- The trailing `event_type` attribute `extractAttributes` appends. -/
def eventTypeAttrOf (obj : JObj) : List KeyValue :=
  let et := stringFrom obj ("event_type")
  if et = "" then [] else [("event_type", AnyValue.str et)]

/-- Span ordering claimed by the spec: ascending start time, ties broken by
lexicographic span-id bytes. -/
def spanOrdered (a b : Span) : Prop :=
  a.startTimeUnixNano < b.startTimeUnixNano ∨
    (a.startTimeUnixNano = b.startTimeUnixNano ∧ compareBytes a.spanId b.spanId ≤ 0)

/-- Log ordering claimed by the spec: ascending time, ties broken by
lexicographic span-id bytes. -/
def logOrdered (a b : LogRecord) : Prop :=
  a.timeUnixNano < b.timeUnixNano ∨
    (a.timeUnixNano = b.timeUnixNano ∧ compareBytes a.spanId b.spanId ≤ 0)

/-- Abstract SpanStart / SpanEnd records over a fixed set of span ids, as in
the pairing claim: an id plus the record's own timestamp string. -/
inductive SpanEvt where
  | start (id : String) (ts : String)
  | stop (id : String) (ts : String)

def SpanEvt.evtId : SpanEvt → String
  | SpanEvt.start id _ => id
  | SpanEvt.stop id _ => id

def SpanEvt.tsOf : SpanEvt → String
  | SpanEvt.start _ ts => ts
  | SpanEvt.stop _ ts => ts

def SpanEvt.isStart : SpanEvt → Bool
  | SpanEvt.start _ _ => true
  | SpanEvt.stop _ _ => false

/-- Parsed object of a well-formed `SpanStart` line for an abstract event. -/
def startObj (id ts : String) : JObj :=
  [("record_type", JVal.str ("SpanStart")), ("span_id", JVal.str id),
    ("start_time_unix_nano", JVal.str ts)]

/-- Parsed object of a well-formed `SpanEnd` line for an abstract event. -/
def stopObj (id ts : String) : JObj :=
  [("record_type", JVal.str ("SpanEnd")), ("span_id", JVal.str id),
    ("end_time_unix_nano", JVal.str ts)]

/-- Concrete well-formed `SpanStart` line for an abstract event. -/
def startLine (id ts : String) : Line := some (startObj id ts)

/-- Concrete well-formed `SpanEnd` line for an abstract event. -/
def stopLine (id ts : String) : Line := some (stopObj id ts)

def evtLine : SpanEvt → Line
  | SpanEvt.start id ts => startLine id ts
  | SpanEvt.stop id ts => stopLine id ts

/-- Records of the same id-and-kind (used to say each id has at most one
start and one end record). -/
def sameKind (a b : SpanEvt) : Bool := a.isStart == b.isStart && a.evtId == b.evtId

/-- Well-formed record set: non-empty ids, timestamps that scan as `uint64`
(positive for starts), at most one start and one end per id. -/
def wfEvents (evs : List SpanEvt) : Bool :=
  evs.all (fun e =>
    e.evtId != "" &&
      (match parseUint64 e.tsOf with
        | some n => !e.isStart || decide (0 < n)
        | none => false)) &&
  evs.all (fun e => decide (evs.countP (fun e2 => sameKind e e2) ≤ 1))

/-- Records for one span id, in interleaving order. -/
def histOf (id : String) (evs : List SpanEvt) : List SpanEvt :=
  evs.filter (fun e => e.evtId == id)

def parseD (ts : String) : Nat := (parseUint64 ts).getD 0

/-- The span the decoder emits for an id whose minimal start record (time
`n`) precedes its end record (time `m`). -/
def expectedSpanOf (id : String) (n m : Nat) : Span :=
  { name := ""
    traceId := []
    spanId := decodeHex id
    parentSpanId := []
    startTimeUnixNano := n
    endTimeUnixNano := if m = 0 then n else m
    attributes := []
    events := []
    status := none }

/-- Spec-side description of the pairing result: an end record for an id
whose full history is start-then-end contributes exactly one span; every
other record contributes none. -/
def pairedEntry (evs : List SpanEvt) : SpanEvt → Option Span
  | SpanEvt.stop id _ =>
    match histOf id evs with
    | [SpanEvt.start _ ts1, SpanEvt.stop _ ts2] =>
      some (expectedSpanOf id (parseD ts1) (parseD ts2))
    | _ => none
  | _ => none

def pairedSpans (evs : List SpanEvt) : List Span := evs.filterMap (pairedEntry evs)

def startedPartial (id : String) (n : Nat) : PendingSpan := { spanID := id, start := n }

def stoppedPartial (id : String) (m : Nat) : PendingSpan := { spanID := id, endT := m }

def bothPartial (id : String) (n m : Nat) : PendingSpan := { spanID := id, start := n, endT := m }

/-- Decoder accumulator contents for one id as a function of that id's record
history (for well-formed histories; longer histories cannot occur). -/
def expectedPartialFor (id : String) : List SpanEvt → Option PendingSpan
  | [] => none
  | [SpanEvt.start _ ts] => some (startedPartial id (parseD ts))
  | [SpanEvt.stop _ ts] => some (stoppedPartial id (parseD ts))
  | [SpanEvt.stop _ ts2, SpanEvt.start _ ts1] => some (bothPartial id (parseD ts1) (parseD ts2))
  | _ => none

/-- A line is clock-independent when, if it is a `SpanStart` record with a
`start_time_unix_nano` field, that field scans as a `uint64` (so the
`time.Now()` fallback of `parseNano` is never consulted). -/
def goodLine : Line → Bool
  | none => true
  | some obj =>
    if stringFrom obj ("record_type") = "SpanStart" then
      let st := stringFrom obj ("start_time_unix_nano")
      st == "" || (parseUint64 st).isSome
    else true

/-- SpanStart whose timestamp does not scan, triggering the `time.Now()`
fallback. -/
def badStartLine : Line :=
  some [("record_type", JVal.str ("SpanStart")), ("span_id", JVal.str ("ab")),
    ("start_time_unix_nano", JVal.str ("xyz"))]

/-- LogRecord carrying no timestamp field at all. -/
def timelessLogLine : Line :=
  some [("record_type", JVal.str ("LogRecord")), ("trace_id", JVal.str ("ab")),
    ("span_id", JVal.str ("cd"))]

/-- LogRecord whose `attributes` object already contains an `event_type` key
while the record also carries a top-level `event_type` field. -/
def dupKeyLogLine : Line :=
  some [("record_type", JVal.str ("LogRecord")), ("trace_id", JVal.str ("ab")),
    ("span_id", JVal.str ("cd")), ("event_type", JVal.str ("y")),
    ("attributes", JVal.obj [("event_type", JVal.str ("x"))])]

/-- SpanEnd record whose attributes carry a failed-test outcome, as emitted by
dbt for a failing test node. -/
def failedTestEndLine : Line :=
  some [("record_type", JVal.str ("SpanEnd")), ("span_id", JVal.str ("ab")),
    ("end_time_unix_nano", JVal.str ("7")),
    ("attributes", JVal.obj
      [("unique_id", JVal.str ("test.my_model")),
        ("node_test_detail", JVal.obj
          [("test_outcome", JVal.str ("TEST_OUTCOME_FAILED")), ("failing_rows", JVal.num 3)])])]

def attrKeys (kvs : List KeyValue) : List String := kvs.map Prod.fst

/-- Exception message composed by the test-failure branch of `DecodeLines`. -/
def testFailMsg (attrsObj testDetail : JObj) : String :=
  let failingRows := getInt testDetail ("failing_rows")
  let uniqueID := stringFrom attrsObj ("unique_id")
  if uniqueID = "" then "Test failed with " ++ toString failingRows ++ " failing rows"
  else
    "Test " ++ quoteChar ++ uniqueID ++ quoteChar ++ " failed with " ++
      toString failingRows ++ " failing rows"

/-- Attributes of the synthesized test-failure `exception` event. -/
def testFailAttrs (attrsObj testDetail : JObj) : List KeyValue :=
  let failingRows := getInt testDetail ("failing_rows")
  let base : List KeyValue :=
    [("exception.type", AnyValue.str ("dbt.TestFailure")),
      ("exception.message", AnyValue.str (testFailMsg attrsObj testDetail))]
  if failingRows > 0 then base ++ [("dbt.test.failing_rows", AnyValue.int failingRows)]
  else base

/-- Start times of the spans decoded from the clock-dependent input used by
the determinism counterexample. -/
def decodeStartNanos (now : Nat) : List Nat :=
  (DecodeLines (NewDecoder 0) now [badStartLine, stopLine ("ab") ("5")]).2.1.map
    Span.startTimeUnixNano

/-- Attribute-key lists of the logs decoded from the given lines by a fresh
cutoff-0 decoder. -/
def emittedLogKeys (lines : List Line) : List (List String) :=
  (DecodeLines (NewDecoder 0) 0 lines).2.2.map (fun l => attrKeys l.attributes)

/-!
# Theorems

Helper lemmas first, then one theorem per claim (witnesses and
counterexamples alongside their claim).
-/

/-! ## Association-map lemmas (attribute modifier) -/

theorem mapGet_mapDelete_self (attrs : List (String × JVal)) (key : String) :
    mapGet (mapDelete attrs key) key = none := by
  induction attrs with
  | nil => rfl
  | cons kv rest ih =>
    by_cases h : kv.1 = key
    · simpa [mapDelete, h] using ih
    · simpa [mapDelete, mapGet, h] using ih

theorem mapGet_mapDelete_other (attrs : List (String × JVal)) (key k : String) (hk : k ≠ key) :
    mapGet (mapDelete attrs key) k = mapGet attrs k := by
  induction attrs with
  | nil => rfl
  | cons kv rest ih =>
    rcases kv with ⟨k1, w⟩
    by_cases h : k1 = key
    · have hne : k1 ≠ k := by
        rw [h]
        exact fun hc => hk hc.symm
      simp only [mapDelete, mapGet, if_pos h, ih, if_neg hne]
    · by_cases h2 : k1 = k
      · simp only [mapDelete, mapGet, if_neg h, if_pos h2]
      · simp only [mapDelete, mapGet, if_neg h, if_neg h2, ih]

theorem mapDelete_absent (attrs : List (String × JVal)) (key : String)
    (h : mapGet attrs key = none) : mapDelete attrs key = attrs := by
  induction attrs with
  | nil => rfl
  | cons kv rest ih =>
    rcases kv with ⟨k1, w⟩
    by_cases hk : k1 = key
    · simp [mapGet, hk] at h
    · have h2 : mapGet rest key = none := by simpa [mapGet, hk] using h
      simp only [mapDelete, if_neg hk, ih h2]

theorem mapGet_mapSet_self (attrs : List (String × JVal)) (key : String) (v : JVal) :
    mapGet (mapSet attrs key v) key = some v := by
  induction attrs with
  | nil => simp [mapSet, mapGet]
  | cons kv rest ih =>
    rcases kv with ⟨k1, w⟩
    by_cases h : k1 = key
    · simp [mapSet, mapGet, h]
    · simp only [mapSet, mapGet, if_neg h, ih]

theorem mapGet_mapSet_other (attrs : List (String × JVal)) (key k : String) (v : JVal)
    (hk : k ≠ key) : mapGet (mapSet attrs key v) k = mapGet attrs k := by
  induction attrs with
  | nil => simp only [mapSet, mapGet, if_neg (Ne.symm hk)]
  | cons kv rest ih =>
    rcases kv with ⟨k1, w⟩
    by_cases h : k1 = key
    · have hne : key ≠ k := fun hc => hk hc.symm
      simp only [mapSet, mapGet, if_pos h, if_neg hne, if_neg (h ▸ hne)]
    · by_cases h2 : k1 = k
      · simp only [mapSet, mapGet, if_neg h, if_pos h2]
      · simp only [mapSet, mapGet, if_neg h, if_neg h2, ih]

/-! ## Claim C1 -/

/-- C1: App.Run returns exactly the wrapped command's exit code whenever a
target command is given and spawns, and the local failure code 1 when no
target command is given or the spawn itself fails; the result never depends
on the telemetry-side conditions (exporter configuration, reachability,
upload errors, drain timeouts). -/
theorem C1_run_exit_code (targetCmd : List String) (outcome : CmdOutcome)
    (tel tel2 : TelemetryConditions) (code : Int) :
    (targetCmd ≠ [] → RunExitCode targetCmd (CmdOutcome.exited code) tel = code) ∧
    RunExitCode [] outcome tel = 1 ∧
    (targetCmd ≠ [] → RunExitCode targetCmd CmdOutcome.startFailed tel = 1) ∧
    RunExitCode targetCmd outcome tel = RunExitCode targetCmd outcome tel2 := by
  refine ⟨?_, ?_, ?_, rfl⟩
  · intro h
    simp [RunExitCode, h]
  · rfl
  · intro h
    simp [RunExitCode, h]

/-- C1 witness: a two-word command exiting 2 makes the wrapper return 2, under
adversarial telemetry conditions. -/
theorem C1_run_exit_code_witness :
    RunExitCode ["dbt", "build"] (CmdOutcome.exited 2)
      { exporterConfigured := false, exporterReachable := false,
        uploadErrored := true, drainTimedOut := true } = 2 :=
  (C1_run_exit_code ["dbt", "build"] (CmdOutcome.exited 2)
    { exporterConfigured := false, exporterReachable := false,
      uploadErrored := true, drainTimedOut := true }
    { exporterConfigured := false, exporterReachable := false,
      uploadErrored := true, drainTimedOut := true } 2).1 (by simp)

/-! ## Claim C8 -/

/-- C8: attributeModifier.Apply treats a false or failing condition as a
no-op on the attribute map (surfacing the evaluation error); a `remove` rule
deletes its key and is a no-op when the key is absent; a `set` rule assigns
the literal or the expression result (an expression error again leaving the
map unchanged); and the compiled expression `"prefix_" + name` applied to a
span named `test-span` stores the value `prefix_test-span`. -/
theorem C8_modifier_apply (m : AttributeModifier Span) (obj : Span)
    (attrs : List (String × JVal)) :
    (∀ prog e, m.whenProg = some prog → prog obj = Except.error e →
      m.Apply obj attrs = (attrs, some e)) ∧
    (∀ prog, m.whenProg = some prog → prog obj = Except.ok (JVal.bool false) →
      m.Apply obj attrs = (attrs, none)) ∧
    (m.whenProg = none → m.action = "remove" →
      mapGet (m.Apply obj attrs).1 m.key = none ∧
      (∀ k, k ≠ m.key → mapGet (m.Apply obj attrs).1 k = mapGet attrs k) ∧
      (mapGet attrs m.key = none → (m.Apply obj attrs).1 = attrs)) ∧
    (m.whenProg = none → m.action ≠ "remove" → m.valueProg = none →
      m.Apply obj attrs = (mapSet attrs m.key m.value, none) ∧
      mapGet (m.Apply obj attrs).1 m.key = some m.value) ∧
    (∀ prog v, m.whenProg = none → m.action ≠ "remove" → m.valueProg = some prog →
      prog obj = Except.ok v →
      m.Apply obj attrs = (mapSet attrs m.key v, none) ∧
      mapGet (m.Apply obj attrs).1 m.key = some v) ∧
    (∀ prog e, m.whenProg = none → m.action ≠ "remove" → m.valueProg = some prog →
      prog obj = Except.error e → m.Apply obj attrs = (attrs, some e)) ∧
    (m.whenProg = none → m.action = "set" → m.valueProg = some celPrefixNameProg →
      obj.name = "test-span" →
      mapGet (m.Apply obj attrs).1 m.key = some (JVal.str ("prefix_test-span"))) := by
  refine ⟨?_, ?_, ?_, ?_, ?_, ?_, ?_⟩
  · intro prog e hw he
    simp [AttributeModifier.Apply, hw, he]
  · intro prog hw he
    simp [AttributeModifier.Apply, hw, he]
  · intro hw ha
    simp only [AttributeModifier.Apply, hw, applyAction, ha, if_pos]
    exact ⟨mapGet_mapDelete_self attrs m.key,
      fun k hk => mapGet_mapDelete_other attrs m.key k hk,
      fun h => mapDelete_absent attrs m.key h⟩
  · intro hw ha hv
    simp only [AttributeModifier.Apply, hw, applyAction, ha, if_neg, hv]
    exact ⟨rfl, mapGet_mapSet_self attrs m.key m.value⟩
  · intro prog v hw ha hv he
    simp only [AttributeModifier.Apply, hw, applyAction, ha, if_neg, hv, he]
    exact ⟨rfl, mapGet_mapSet_self attrs m.key v⟩
  · intro prog e hw ha hv he
    simp [AttributeModifier.Apply, hw, applyAction, ha, hv, he]
  · intro hw ha hv hn
    have hne : m.action ≠ "remove" := by simp [ha]
    simp only [AttributeModifier.Apply, hw, applyAction, hne, if_neg, hv, celPrefixNameProg, hn]
    have : ("prefix_" ++ "test-span" : String) = "prefix_test-span" := by decide
    rw [this]
    exact mapGet_mapSet_self attrs m.key (JVal.str ("prefix_test-span"))

/-- C8 witness: a concrete `set` rule with the `"prefix_" + name` expression,
applied to a span named `test-span`, stores `prefix_test-span` under its key. -/
theorem C8_modifier_apply_witness :
    mapGet
      ((AttributeModifier.Apply
          { action := "set", whenProg := none, key := "k", value := JVal.null,
            valueProg := some celPrefixNameProg }
          { name := "test-span", traceId := [], spanId := [], parentSpanId := [],
            startTimeUnixNano := 0, endTimeUnixNano := 0, attributes := [], events := [],
            status := none }
          []).1) ("k") = some (JVal.str ("prefix_test-span")) :=
  (C8_modifier_apply
    { action := "set", whenProg := none, key := "k", value := JVal.null,
      valueProg := some celPrefixNameProg }
    { name := "test-span", traceId := [], spanId := [], parentSpanId := [],
      startTimeUnixNano := 0, endTimeUnixNano := 0, attributes := [], events := [],
      status := none }
    []).2.2.2.2.2.2 rfl rfl rfl rfl

/-! ## Claim C9 -/

theorem multiplexRun_fst (op : MExporter → MExporter × Option String)
    (exps : List MExporter) : (multiplexRun op exps).1 = exps.map (fun e => (op e).1) := by
  induction exps with
  | nil => rfl
  | cons e rest ih => simp [multiplexRun, ih]

theorem multiplexRun_snd (op : MExporter → MExporter × Option String)
    (exps : List MExporter) :
    (multiplexRun op exps).2 = exps.filterMap (fun e => (op e).2) := by
  induction exps with
  | nil => rfl
  | cons e rest ih =>
    cases h : (op e).2 <;> simp [multiplexRun, List.filterMap_cons, h, ih]

theorem joinErrors_eq_none (errs : List String) : joinErrors errs = none ↔ errs = [] := by
  simp [joinErrors]

/-- C9: every MultiplexExporter operation invokes all N exporters even when
some fail (each invocation trace is extended exactly once), returns nil
exactly when no exporter failed, and otherwise returns the combined error
aggregating exactly the errors of the failing exporters. -/
theorem C9_multiplex_all_ops (exps : List MExporter) (batch : Nat) :
    ((MultiplexExporter.UploadTraces exps batch).1 =
      exps.map (fun e => { e with receivedTraces := e.receivedTraces ++ [batch] })) ∧
    ((MultiplexExporter.UploadTraces exps batch).2 =
      joinErrors (exps.filterMap (fun e => e.uploadTracesErr batch))) ∧
    ((MultiplexExporter.UploadTraces exps batch).2 = none ↔
      ∀ e ∈ exps, e.uploadTracesErr batch = none) ∧
    ((MultiplexExporter.UploadLogs exps batch).1 =
      exps.map (fun e => { e with receivedLogs := e.receivedLogs ++ [batch] })) ∧
    ((MultiplexExporter.UploadLogs exps batch).2 =
      joinErrors (exps.filterMap (fun e => e.uploadLogsErr batch))) ∧
    ((MultiplexExporter.UploadLogs exps batch).2 = none ↔
      ∀ e ∈ exps, e.uploadLogsErr batch = none) ∧
    ((MultiplexExporter.Start exps).1 =
      exps.map (fun e => { e with startCalls := e.startCalls + 1 })) ∧
    ((MultiplexExporter.Start exps).2 = joinErrors (exps.filterMap (fun e => e.startErr))) ∧
    ((MultiplexExporter.Start exps).2 = none ↔ ∀ e ∈ exps, e.startErr = none) ∧
    ((MultiplexExporter.Stop exps).1 =
      exps.map (fun e => { e with stopCalls := e.stopCalls + 1 })) ∧
    ((MultiplexExporter.Stop exps).2 = joinErrors (exps.filterMap (fun e => e.stopErr))) ∧
    ((MultiplexExporter.Stop exps).2 = none ↔ ∀ e ∈ exps, e.stopErr = none) := by
  refine ⟨?_, ?_, ?_, ?_, ?_, ?_, ?_, ?_, ?_, ?_, ?_, ?_⟩ <;>
    simp [MultiplexExporter.UploadTraces, MultiplexExporter.UploadLogs,
      MultiplexExporter.Start, MultiplexExporter.Stop, multiplexRun_fst, multiplexRun_snd,
      uploadTracesOp, uploadLogsOp, startOp, stopOp, joinErrors_eq_none,
      List.filterMap_eq_nil_iff]

/-- C9 witness: with one failing and one succeeding exporter, both receive the
trace batch and the combined error holds exactly the failing one's error. -/
theorem C9_multiplex_witness :
    ((MultiplexExporter.UploadTraces
        [{ startErr := none, stopErr := none, uploadLogsErr := fun _ => none,
            uploadTracesErr := fun _ => some ("boom") },
          { startErr := none, stopErr := none, uploadLogsErr := fun _ => none,
            uploadTracesErr := fun _ => none }] 5).1.map
      (fun e => e.receivedTraces) = [[5], [5]]) ∧
    (MultiplexExporter.UploadTraces
        [{ startErr := none, stopErr := none, uploadLogsErr := fun _ => none,
            uploadTracesErr := fun _ => some ("boom") },
          { startErr := none, stopErr := none, uploadLogsErr := fun _ => none,
            uploadTracesErr := fun _ => none }] 5).2 = some ["boom"] := by
  have h := C9_multiplex_all_ops
    [{ startErr := none, stopErr := none, uploadLogsErr := fun _ => none,
        uploadTracesErr := fun _ => some ("boom") },
      { startErr := none, stopErr := none, uploadLogsErr := fun _ => none,
        uploadTracesErr := fun _ => none }] 5
  exact ⟨by rw [h.1]; rfl, by rw [h.2.1]; rfl⟩


/-! ## Decoder plumbing lemmas -/

theorem processLine_cutoff (d : Decoder) (now : Nat) (line : Line) :
    (processLine d now line).1.cutoffTimeNano = d.cutoffTimeNano := by
  cases line with
  | none => rfl
  | some obj =>
    dsimp only [processLine]
    repeat' split
    all_goals rfl

theorem processAll_cutoff (d : Decoder) (now : Nat) (lines : List Line) :
    (processAll d now lines).1.cutoffTimeNano = d.cutoffTimeNano := by
  induction lines generalizing d with
  | nil => rfl
  | cons line rest ih =>
    simp only [processAll]
    rw [ih, processLine_cutoff]

/-! ## Claim C3 -/

theorem processLine_skip (d : Decoder) (now : Nat) (obj : JObj)
    (h1 : 0 < recordTimeNano obj) (h2 : recordTimeNano obj < d.cutoffTimeNano) :
    processLine d now (some obj) = (d, [], []) := by
  by_cases hrt : stringFrom obj ("record_type") = ""
  · simp [processLine, hrt]
  · simp [processLine, hrt, h1, h2]

theorem processAll_cons (d : Decoder) (now : Nat) (line : Line) (rest : List Line) :
    processAll d now (line :: rest) =
      ((processAll (processLine d now line).1 now rest).1,
        (processLine d now line).2.1 ++ (processAll (processLine d now line).1 now rest).2.1,
        (processLine d now line).2.2 ++ (processAll (processLine d now line).1 now rest).2.2) :=
  rfl

theorem processAll_append (d : Decoder) (now : Nat) (l1 l2 : List Line) :
    processAll d now (l1 ++ l2) =
      ((processAll (processAll d now l1).1 now l2).1,
        (processAll d now l1).2.1 ++ (processAll (processAll d now l1).1 now l2).2.1,
        (processAll d now l1).2.2 ++ (processAll (processAll d now l1).1 now l2).2.2) := by
  induction l1 generalizing d with
  | nil => simp [processAll]
  | cons line rest ih =>
    simp [processAll_cons, ih, List.append_assoc]

theorem processAll_skip (d : Decoder) (now : Nat) (obj : JObj) (post : List Line)
    (h1 : 0 < recordTimeNano obj) (h2 : recordTimeNano obj < d.cutoffTimeNano) :
    processAll d now (some obj :: post) = processAll d now post := by
  rw [processAll_cons, processLine_skip d now obj h1 h2]
  simp

/-- C3 (amended): any record whose computed timestamp `t` satisfies
`0 < t < cutoff` is dropped before reaching decoder state, so removing it from
the input leaves the decoder result unchanged; a cutoff of `0` never filters
(the guard is unsatisfiable); and cutoff-independence holds for every record
with timestamp `0`, which is never filtered no matter how large the cutoff. -/
theorem C3_cutoff_filtering :
    (∀ (d : Decoder) (now : Nat) (obj : JObj) (pre post : List Line),
      0 < recordTimeNano obj → recordTimeNano obj < d.cutoffTimeNano →
      DecodeLines d now (pre ++ some obj :: post) = DecodeLines d now (pre ++ post)) ∧
    (∀ obj : JObj,
      ¬ (0 < recordTimeNano obj ∧ recordTimeNano obj < (NewDecoder 0).cutoffTimeNano)) ∧
    (∀ (c1 c2 : Nat) (ps : List (String × PendingSpan)) (now : Nat) (obj : JObj),
      recordTimeNano obj = 0 →
      ((processLine { cutoffTimeNano := c1, spanPartials := ps } now (some obj)).1.spanPartials =
        (processLine { cutoffTimeNano := c2, spanPartials := ps } now (some obj)).1.spanPartials ∧
       (processLine { cutoffTimeNano := c1, spanPartials := ps } now (some obj)).2 =
        (processLine { cutoffTimeNano := c2, spanPartials := ps } now (some obj)).2)) := by
  refine ⟨?_, ?_, ?_⟩
  · intro d now obj pre post h1 h2
    have hd : ∀ d2 : Decoder, d2.cutoffTimeNano = d.cutoffTimeNano →
        processAll d2 now (some obj :: post) = processAll d2 now post := by
      intro d2 hc
      exact processAll_skip d2 now obj post h1 (hc ▸ h2)
    have hkeep : (processAll d now pre).1.cutoffTimeNano = d.cutoffTimeNano :=
      processAll_cutoff d now pre
    unfold DecodeLines
    rw [processAll_append, processAll_append, hd _ hkeep]
  · intro obj
    simp [NewDecoder]
  · intro c1 c2 ps now obj h0
    by_cases hrt : stringFrom obj ("record_type") = ""
    · simp [processLine, hrt]
    · simp only [processLine, hrt, h0]
      by_cases hs : stringFrom obj ("record_type") = "SpanStart" ∨
          stringFrom obj ("record_type") = "SpanEnd"
      · simp [hs]
      · by_cases hl : stringFrom obj ("record_type") = "LogRecord" <;> simp [hs, hl]

/-- C3 counterexample: a parsed LogRecord with no timestamp field (computed
timestamp 0) is not filtered even by a cutoff larger than every timestamp:
it still reaches the output. -/
theorem C3_counterexample :
    recordTimeNano (timelessLogLine.getD []) = 0 ∧
    (DecodeLines (NewDecoder (10 ^ 30)) 0 [timelessLogLine]).2.2.length = 1 :=
  ⟨rfl, rfl⟩

/-- C3 witness: a record timestamped 5 under cutoff 10 is dropped. -/
theorem C3_witness :
    DecodeLines (NewDecoder 10) 0
        [some [("record_type", JVal.str ("LogRecord")), ("trace_id", JVal.str ("ab")),
          ("span_id", JVal.str ("cd")), ("time_unix_nano", JVal.str ("5"))]] =
      DecodeLines (NewDecoder 10) 0 [] :=
  (C3_cutoff_filtering).1 (NewDecoder 10) 0
    [("record_type", JVal.str ("LogRecord")), ("trace_id", JVal.str ("ab")),
      ("span_id", JVal.str ("cd")), ("time_unix_nano", JVal.str ("5"))] [] []
    (by decide) (by decide)



/-! ## jsonToAny unfolding lemmas -/

theorem jsonToAny_str (s : String) : jsonToAny (JVal.str s) = AnyValue.str s := by
  simp [jsonToAny]

theorem jsonToAny_num (x : Int) : jsonToAny (JVal.num x) = AnyValue.double x := by
  simp [jsonToAny]

theorem jsonToAny_boolv (b : Bool) : jsonToAny (JVal.bool b) = AnyValue.bool b := by
  simp [jsonToAny]

theorem jsonToAny_null : jsonToAny JVal.null = AnyValue.str "<nil>" := by
  simp [jsonToAny]

theorem jsonToAny_arr (items : List JVal) :
    jsonToAny (JVal.arr items) = AnyValue.arr (items.map (fun v => jsonToAny v)) := by
  rw [jsonToAny]
  rw [List.attach_map_val items (fun v => jsonToAny v)]

theorem jsonToAny_obj (fields : List (String × JVal)) :
    jsonToAny (JVal.obj fields) =
      AnyValue.kvlist (sortKVsByKey (fields.map (fun kv => (kv.1, jsonToAny kv.2)))) := by
  rw [jsonToAny]
  rw [List.attach_map_val fields (fun kv => (kv.1, jsonToAny kv.2))]

/-! ## Claim C5 -/

theorem dedupSeen_filter (k : String) :
    ∀ (attrs : List KeyValue) (seen : List String),
      (dedupSeen seen attrs).filter (fun kv => kv.1 == k) =
        if seen.contains k then [] else (attrs.filter (fun kv => kv.1 == k)).take 1 := by
  intro attrs
  induction attrs with
  | nil => intro seen; by_cases h : seen.contains k <;> simp [dedupSeen, h]
  | cons kv rest ih =>
    intro seen
    by_cases hs : seen.contains kv.1
    · rw [dedupSeen, if_pos hs, ih seen]
      by_cases hk : seen.contains k
      · rw [if_pos hk, if_pos hk]
      · have hne : ¬ (kv.1 == k) = true := by
          intro hc
          exact hk ((eq_of_beq hc) ▸ hs)
        rw [if_neg hk, if_neg hk, List.filter_cons_of_neg (by simpa using hne)]
    · rw [dedupSeen, if_neg hs]
      by_cases hk2 : kv.1 = k
      · subst hk2
        have hcon : (kv.1 :: seen).contains kv.1 = true := by simp
        rw [List.filter_cons_of_pos (by simp), ih (kv.1 :: seen), if_pos hcon,
          if_neg hs, List.filter_cons_of_pos (by simp)]
        simp
      · have hne : ¬ (kv.1 == k) = true := by simpa using hk2
        rw [List.filter_cons_of_neg (by simpa using hne), ih (kv.1 :: seen),
          List.filter_cons_of_neg (by simpa using hne)]
        have : (kv.1 :: seen).contains k = seen.contains k := by
          simp [List.contains_cons, Ne.symm hk2]
        rw [this]

theorem dedupSeen_keys_nodup :
    ∀ (attrs : List KeyValue) (seen : List String),
      (∀ k ∈ seen, k ∉ (dedupSeen seen attrs).map Prod.fst) ∧
        ((dedupSeen seen attrs).map Prod.fst).Nodup := by
  intro attrs
  induction attrs with
  | nil => intro seen; simp [dedupSeen]
  | cons kv rest ih =>
    intro seen
    by_cases hs : seen.contains kv.1
    · rw [dedupSeen, if_pos hs]
      exact ih seen
    · rw [dedupSeen, if_neg hs]
      obtain ⟨hnotin, hnd⟩ := ih (kv.1 :: seen)
      constructor
      · intro k hk
        have hknot := hnotin k (List.mem_cons_of_mem _ hk)
        intro hc
        rw [List.map_cons] at hc
        rcases List.mem_cons.mp hc with h1 | h2
        · have hin : kv.1 ∈ seen := h1 ▸ hk
          have hcon : seen.contains kv.1 = true := by simpa using hin
          exact hs hcon
        · exact hknot h2
      · rw [List.map_cons]
        exact List.Nodup.cons (hnotin kv.1 (List.mem_cons_self _ _)) hnd

theorem buildSpan_attributes (p : PendingSpan) :
    (buildSpan p).map Span.attributes =
      if p.start = 0 then none else some (deduplicateAttributes p.attrs) := by
  by_cases h : p.start = 0
  · simp [buildSpan, h]
  · simp only [buildSpan, if_neg h]
    split <;> split <;> rfl

/-- C5 (amended): the attributes a span is built from are deduplicated by key
with the first occurrence (in record-arrival order) surviving, and the
deduplicated list has pairwise-distinct keys; the claimed uniqueness of keys
in every emitted record does not hold after the default `dbt.` prefixing and
does not hold for logs, which are not deduplicated (see the counterexample). -/
theorem C5_dedup_first_wins (p : PendingSpan) (attrs : List KeyValue) (k : String) :
    ((buildSpan p).map Span.attributes =
      if p.start = 0 then none else some (deduplicateAttributes p.attrs)) ∧
    (deduplicateAttributes attrs).filter (fun kv => kv.1 == k) =
      (attrs.filter (fun kv => kv.1 == k)).take 1 ∧
    (attrKeys (deduplicateAttributes attrs)).Nodup := by
  refine ⟨buildSpan_attributes p, ?_, ?_⟩
  · have h := dedupSeen_filter k attrs []
    simpa [deduplicateAttributes] using h
  · exact (dedupSeen_keys_nodup attrs []).2

/-- C5 counterexample: a LogRecord whose `attributes` object contains an
`event_type` key while the record also carries a top-level `event_type` field
is emitted with two identical `dbt.event_type` attribute keys — emitted
records are not guaranteed unique (case-sensitive) attribute keys. -/
theorem C5_counterexample :
    emittedLogKeys [dupKeyLogLine] = [["dbt.event_type", "dbt.event_type"]] ∧
    ¬ (["dbt.event_type", "dbt.event_type"] : List String).Nodup := by
  constructor
  · simp [emittedLogKeys, DecodeLines, processAll, processLine, processLogRecord, dupKeyLogLine,
      stringFrom, jlookup, recordTimeNano, extractAttributes, convertAttributesFromMap,
      jsonValueToKeyValue, jsonToAny_str, sortKVsByKey, bubbleSort, bubbleSortGo, bubblePassK,
      attrKeys, defaultAttributeTransformer, sortLogsByTime, sortSpansByStartTime, decodeHex,
      getInt, hexDecodePairs, hexDigit, parseNano, parseUint64, NewDecoder, strStartsWith,
      charsLeadWith, eventTypeAttrOf]
  · decide



/-! ## Claim C4 -/

theorem spanStartMerge_now_indep (p : PendingSpan) (obj : JObj) (now1 now2 : Nat)
    (h : stringFrom obj ("start_time_unix_nano") = "" ∨
      (parseUint64 (stringFrom obj ("start_time_unix_nano"))).isSome) :
    spanStartMerge p obj now1 = spanStartMerge p obj now2 := by
  by_cases hst : stringFrom obj ("start_time_unix_nano") = ""
  · simp [spanStartMerge, hst]
  · rcases h.resolve_left hst with hsome
    rcases Option.isSome_iff_exists.mp hsome with ⟨n, hn⟩
    simp [spanStartMerge, hst, parseNano, hn]

theorem processSpanRecord_now_indep (ps : List (String × PendingSpan)) (now1 now2 : Nat)
    (obj : JObj) (b : Bool)
    (h : b = true → stringFrom obj ("start_time_unix_nano") = "" ∨
      (parseUint64 (stringFrom obj ("start_time_unix_nano"))).isSome) :
    processSpanRecord ps now1 obj b = processSpanRecord ps now2 obj b := by
  cases b with
  | false => rfl
  | true =>
    simp only [processSpanRecord,
      spanStartMerge_now_indep (mergeIds ((findPartial ps (stringFrom obj ("span_id"))).getD {})
        obj (stringFrom obj ("span_id"))) obj now1 now2 (h rfl)]

theorem processLine_now_indep (d : Decoder) (now1 now2 : Nat) (line : Line)
    (h : goodLine line = true) : processLine d now1 line = processLine d now2 line := by
  cases line with
  | none => rfl
  | some obj =>
    have hx : processSpanRecord d.spanPartials now1 obj
        (decide (stringFrom obj ("record_type") = "SpanStart")) =
        processSpanRecord d.spanPartials now2 obj
        (decide (stringFrom obj ("record_type") = "SpanStart")) := by
      apply processSpanRecord_now_indep
      intro hb
      have hs : stringFrom obj ("record_type") = "SpanStart" := of_decide_eq_true hb
      rw [goodLine, if_pos hs] at h
      rcases Bool.or_eq_true_iff.mp h with h1 | h2
      · exact Or.inl (by simpa using h1)
      · exact Or.inr h2
    simp only [processLine, hx]

theorem processAll_now_indep (d : Decoder) (now1 now2 : Nat) (lines : List Line)
    (h : ∀ l ∈ lines, goodLine l = true) :
    processAll d now1 lines = processAll d now2 lines := by
  induction lines generalizing d with
  | nil => rfl
  | cons line rest ih =>
    have h1 := processLine_now_indep d now1 now2 line (h line (List.mem_cons_self _ _))
    simp only [processAll, h1, ih (processLine d now2 line).1
      (fun l hl => h l (List.mem_cons_of_mem _ hl))]

theorem DecodeLines_now_indep (d : Decoder) (now1 now2 : Nat) (lines : List Line)
    (h : ∀ l ∈ lines, goodLine l = true) :
    DecodeLines d now1 lines = DecodeLines d now2 lines := by
  unfold DecodeLines
  rw [processAll_now_indep d now1 now2 lines h]

/-- C4 (amended): for line lists in which every `SpanStart` record's
`start_time_unix_nano` field (when present) scans as a `uint64` — so the
`time.Now()` fallback of `parseNano` is never consulted — decoding is a pure
function of the input: two fresh decoders with the same cutoff and the same
lines, split identically across successive `DecodeLines` calls, produce
identical span and log outputs whatever the ambient clock reads. -/
theorem C4_determinism (cutoff now1 now2 : Nat) (chunks : List (List Line))
    (h : ∀ l ∈ chunks.flatten, goodLine l = true) :
    DecodeChunks (NewDecoder cutoff) now1 chunks =
      DecodeChunks (NewDecoder cutoff) now2 chunks := by
  suffices hgen : ∀ (d : Decoder) (cs : List (List Line)), (∀ l ∈ cs.flatten, goodLine l = true) →
      DecodeChunks d now1 cs = DecodeChunks d now2 cs from
    hgen (NewDecoder cutoff) chunks h
  intro d cs
  induction cs generalizing d with
  | nil => intro _; rfl
  | cons c rest ih =>
    intro hall
    have hc : ∀ l ∈ c, goodLine l = true := by
      intro l hl
      exact hall l (by simp [List.mem_flatten]; exact Or.inl hl)
    have hrest : ∀ l ∈ rest.flatten, goodLine l = true := by
      intro l hl
      exact hall l (by simp [List.mem_flatten] at hl ⊢; exact Or.inr hl)
    have h1 := DecodeLines_now_indep d now1 now2 c hc
    simp only [DecodeChunks, h1, ih (DecodeLines d now2 c).1 hrest]

/-- C4 witness: a start/end pair split across two decode calls gives the same
result under two different clock readings. -/
theorem C4_determinism_witness :
    DecodeChunks (NewDecoder 0) 1 [[startLine ("aa") ("1")], [stopLine ("aa") ("2")]] =
      DecodeChunks (NewDecoder 0) 2 [[startLine ("aa") ("1")], [stopLine ("aa") ("2")]] :=
  C4_determinism 0 1 2 [[startLine ("aa") ("1")], [stopLine ("aa") ("2")]] (by decide)

/-- C4 counterexample: a SpanStart whose timestamp does not scan makes the
emitted span's start time equal the ambient clock, so the same input decoded
at clock 1 and clock 2 yields different span outputs. -/
theorem C4_counterexample :
    decodeStartNanos 1 = [1] ∧ decodeStartNanos 2 = [2] ∧
    DecodeLines (NewDecoder 0) 1 [badStartLine, stopLine ("ab") ("5")] ≠
      DecodeLines (NewDecoder 0) 2 [badStartLine, stopLine ("ab") ("5")] := by
  refine ⟨rfl, rfl, fun h => ?_⟩
  have h2 : decodeStartNanos 1 = decodeStartNanos 2 := by
    unfold decodeStartNanos
    rw [h]
  rw [show decodeStartNanos 1 = [1] from rfl, show decodeStartNanos 2 = [2] from rfl] at h2
  exact absurd h2 (by decide)



/-! ## Bubble sort correctness

With `le x y` meaning `swap x y = false`, the Go comparators are total
preorders: `hA` says a comparator never fires both ways, `hT` says `le` is
transitive.  Under these the truncated-pass bubble sort sorts. -/

theorem bubblePassK_eq (swap : α → α → Bool) :
    ∀ (k : Nat) (l : List α),
      bubblePassK swap k l = bubblePass swap (l.take (k + 1)) ++ l.drop (k + 1) := by
  intro k
  induction k with
  | zero =>
    intro l
    cases l with
    | nil => simp [bubblePassK, bubblePass]
    | cons a t => simp [bubblePassK, bubblePass]
  | succ k ih =>
    intro l
    cases l with
    | nil => simp [bubblePassK, bubblePass]
    | cons a t =>
      cases t with
      | nil => simp [bubblePassK, bubblePass]
      | cons b t2 =>
        by_cases hs : swap a b = true
        · rw [show bubblePassK swap (k + 1) (a :: b :: t2) =
              b :: bubblePassK swap k (a :: t2) from by simp [bubblePassK, hs]]
          rw [ih (a :: t2)]
          simp [List.take_succ_cons, List.drop_succ_cons, bubblePass, hs]
        · rw [show bubblePassK swap (k + 1) (a :: b :: t2) =
              a :: bubblePassK swap k (b :: t2) from by simp [bubblePassK, hs]]
          rw [ih (b :: t2)]
          simp [List.take_succ_cons, List.drop_succ_cons, bubblePass, hs]

theorem bubblePass_perm (swap : α → α → Bool) : ∀ l : List α, (bubblePass swap l).Perm l
  | [] => by simp [bubblePass]
  | [a] => by simp [bubblePass]
  | a :: b :: t => by
    by_cases hs : swap a b = true
    · rw [show bubblePass swap (a :: b :: t) = b :: bubblePass swap (a :: t) from by
        simp [bubblePass, hs]]
      exact ((bubblePass_perm swap (a :: t)).cons b).trans (List.Perm.swap a b t)
    · rw [show bubblePass swap (a :: b :: t) = a :: bubblePass swap (b :: t) from by
        simp [bubblePass, hs]]
      exact (bubblePass_perm swap (b :: t)).cons a
termination_by l => l.length

theorem bubblePass_last (swap : α → α → Bool)
    (hA : ∀ a b, swap a b = true → swap b a = false)
    (hT : ∀ a b c, swap a b = false → swap b c = false → swap a c = false) :
    ∀ (l : List α) (a : α), ∃ init m, bubblePass swap (a :: l) = init ++ [m] ∧
      (∀ x ∈ init, swap x m = false) ∧ (a :: l).Perm (init ++ [m]) := by
  intro l
  induction l with
  | nil => exact fun a => ⟨[], a, by simp [bubblePass], by simp, by simp⟩
  | cons b t ih =>
    intro a
    by_cases hs : swap a b = true
    · rw [show bubblePass swap (a :: b :: t) = b :: bubblePass swap (a :: t) from by
        simp [bubblePass, hs]]
      obtain ⟨init, m, heq, hub, hperm⟩ := ih a
      refine ⟨b :: init, m, by simp [heq], ?_, ?_⟩
      · intro x hx
        rcases List.mem_cons.mp hx with rfl | hxi
        · have hba : swap x a = false := hA a x hs
          have ham : a ∈ init ++ [m] := hperm.subset (List.mem_cons_self a t)
          rcases List.mem_append.mp ham with hai | ham2
          · exact hT x a m hba (hub a hai)
          · have hma : a = m := by simpa using ham2
            rw [← hma]
            exact hba
        · exact hub x hxi
      · have h1 : (a :: b :: t).Perm (b :: a :: t) := List.Perm.swap b a t
        have h2 : (b :: a :: t).Perm (b :: (init ++ [m])) := hperm.cons b
        simpa using h1.trans h2
    · rw [show bubblePass swap (a :: b :: t) = a :: bubblePass swap (b :: t) from by
        simp [bubblePass, hs]]
      have hs2 : swap a b = false := by simpa using hs
      obtain ⟨init, m, heq, hub, hperm⟩ := ih b
      refine ⟨a :: init, m, by simp [heq], ?_, ?_⟩
      · intro x hx
        rcases List.mem_cons.mp hx with rfl | hxi
        · have hbm : b ∈ init ++ [m] := hperm.subset (List.mem_cons_self b t)
          rcases List.mem_append.mp hbm with hbi | hbm2
          · exact hT x b m hs2 (hub b hbi)
          · have hmb : b = m := by simpa using hbm2
            rw [← hmb]
            exact hs2
        · exact hub x hxi
      · simpa using hperm.cons a

theorem bubblePassK_sorted_step (swap : α → α → Bool)
    (hA : ∀ a b, swap a b = true → swap b a = false)
    (hT : ∀ a b c, swap a b = false → swap b c = false → swap a c = false)
    (k : Nat) (l : List α)
    (hs : List.Chain' (fun a b => swap a b = false) (l.drop (k + 1 + 1)))
    (hd : ∀ x ∈ l.take (k + 1 + 1), ∀ y ∈ l.drop (k + 1 + 1), swap x y = false) :
    List.Chain' (fun a b => swap a b = false) ((bubblePassK swap (k + 1) l).drop (k + 1)) ∧
    (∀ x ∈ (bubblePassK swap (k + 1) l).take (k + 1),
      ∀ y ∈ (bubblePassK swap (k + 1) l).drop (k + 1), swap x y = false) := by
  rw [bubblePassK_eq]
  cases hl : l.take (k + 1 + 1) with
  | nil =>
    have hnil : l = [] := by
      cases l with
      | nil => rfl
      | cons a t => simp [List.take_succ_cons] at hl
    subst hnil
    simp [bubblePass]
  | cons a F =>
    obtain ⟨init, m, heq, hub, hperm⟩ := bubblePass_last swap hA hT F a
    rw [heq]
    have hlen1 : init.length + 1 = (l.take (k + 1 + 1)).length := by
      have h1 := hperm.length_eq
      rw [hl]
      simp only [List.length_cons, List.length_append, List.length_singleton, List.length_nil] at h1 ⊢
      omega
    by_cases hcase : l.length ≤ k + 1
    · have hdropB : l.drop (k + 1 + 1) = [] := List.drop_eq_nil_of_le (by omega)
      have hlt : (l.take (k + 1 + 1)).length ≤ k + 1 := by
        rw [List.length_take]
        omega
      have hlen2 : ((init ++ [m]) ++ l.drop (k + 1 + 1)).length ≤ k + 1 := by
        rw [hdropB]
        simp only [List.append_nil, List.length_append, List.length_singleton, List.length_nil]
        omega
      have hdrop0 : ((init ++ [m]) ++ l.drop (k + 1 + 1)).drop (k + 1) = [] :=
        List.drop_eq_nil_of_le hlen2
      rw [hdrop0]
      simp
    · have htl : (l.take (k + 1 + 1)).length = k + 1 + 1 := by
        rw [List.length_take]
        omega
      have hinit : init.length = k + 1 := by omega
      have hdrop_eq : ((init ++ [m]) ++ l.drop (k + 1 + 1)).drop (k + 1) = m :: l.drop (k + 1 + 1) := by
        rw [List.append_assoc, ← hinit, List.drop_left]
        rfl
      have htake_eq : ((init ++ [m]) ++ l.drop (k + 1 + 1)).take (k + 1) = init := by
        rw [List.append_assoc, ← hinit, List.take_left]
      rw [hdrop_eq, htake_eq]
      have hmem_take : ∀ x ∈ init ++ [m], x ∈ l.take (k + 1 + 1) := by
        intro x hx
        rw [hl]
        exact hperm.symm.subset hx
      constructor
      · refine List.chain'_cons'.mpr ⟨?_, hs⟩
        intro y hy
        exact hd m (hmem_take m (by simp)) y (List.mem_of_mem_head? hy)
      · intro x hx y hy
        rcases List.mem_cons.mp hy with rfl | hyB
        · exact hub x hx
        · exact hd x (hmem_take x (List.mem_append_left _ hx)) y hyB

theorem bubbleSortGo_sorted (swap : α → α → Bool)
    (hA : ∀ a b, swap a b = true → swap b a = false)
    (hT : ∀ a b c, swap a b = false → swap b c = false → swap a c = false) :
    ∀ (k : Nat) (l : List α),
      List.Chain' (fun a b => swap a b = false) (l.drop (k + 1)) →
      (∀ x ∈ l.take (k + 1), ∀ y ∈ l.drop (k + 1), swap x y = false) →
      List.Chain' (fun a b => swap a b = false) (bubbleSortGo swap k l) := by
  intro k
  induction k with
  | zero =>
    intro l hs hd
    show List.Chain' _ l
    cases l with
    | nil => simp
    | cons a t =>
      refine List.chain'_cons'.mpr ⟨?_, by simpa using hs⟩
      intro y hy
      exact hd a (by simp) y (List.mem_of_mem_head? hy)
  | succ k ih =>
    intro l hs hd
    show List.Chain' _ (bubbleSortGo swap k (bubblePassK swap (k + 1) l))
    obtain ⟨hs2, hd2⟩ := bubblePassK_sorted_step swap hA hT k l hs hd
    exact ih (bubblePassK swap (k + 1) l) hs2 hd2

theorem bubbleSort_sorted (swap : α → α → Bool)
    (hA : ∀ a b, swap a b = true → swap b a = false)
    (hT : ∀ a b c, swap a b = false → swap b c = false → swap a c = false)
    (l : List α) : List.Chain' (fun a b => swap a b = false) (bubbleSort swap l) := by
  have hnil : l.drop (l.length - 1 + 1) = [] := List.drop_eq_nil_of_le (by omega)
  apply bubbleSortGo_sorted swap hA hT
  · rw [hnil]
    exact List.chain'_nil
  · intro x hx y hy
    rw [hnil] at hy
    exact absurd hy (List.not_mem_nil y)

theorem bubblePassK_perm (swap : α → α → Bool) (k : Nat) (l : List α) :
    (bubblePassK swap k l).Perm l := by
  rw [bubblePassK_eq]
  have h1 := (bubblePass_perm swap (l.take (k + 1))).append_right (l.drop (k + 1))
  have h2 : l.take (k + 1) ++ l.drop (k + 1) = l := List.take_append_drop _ _
  rw [h2] at h1
  exact h1

theorem bubbleSortGo_perm (swap : α → α → Bool) :
    ∀ (k : Nat) (l : List α), (bubbleSortGo swap k l).Perm l := by
  intro k
  induction k with
  | zero => intro l; exact List.Perm.refl l
  | succ k ih =>
    intro l
    exact (ih (bubblePassK swap (k + 1) l)).trans (bubblePassK_perm swap (k + 1) l)

theorem bubbleSort_perm (swap : α → α → Bool) (l : List α) : (bubbleSort swap l).Perm l :=
  bubbleSortGo_perm swap (l.length - 1) l



/-! ## Comparator properties and Claim C6 -/

theorem compareBytes_antisym : ∀ a b : List Nat, compareBytes a b = -compareBytes b a := by
  intro a
  induction a with
  | nil => intro b; cases b <;> simp [compareBytes]
  | cons x ta ih =>
    intro b
    cases b with
    | nil => simp [compareBytes]
    | cons y tb =>
      by_cases h1 : x < y
      · have h2 : ¬ y < x := by omega
        simp [compareBytes, h1, h2]
      · by_cases h2 : y < x
        · simp [compareBytes, h1, h2]
        · simp [compareBytes, h1, h2, ih tb]

theorem compareBytes_le_trans :
    ∀ a b c : List Nat, compareBytes a b ≤ 0 → compareBytes b c ≤ 0 → compareBytes a c ≤ 0 := by
  intro a
  induction a with
  | nil =>
    intro b c _ _
    cases c <;> simp [compareBytes]
  | cons x ta ih =>
    intro b c hab hbc
    cases b with
    | nil => simp [compareBytes] at hab
    | cons y tb =>
      cases c with
      | nil => simp [compareBytes] at hbc
      | cons z tc =>
        by_cases hxy : x < y
        · by_cases hyz : y < z
          · have hxz : x < z := by omega
            simp [compareBytes, hxz]
          · by_cases hzy : z < y
            · simp [compareBytes, hyz, hzy] at hbc
            · have hyz2 : y = z := by omega
              have hxz : x < z := by omega
              simp [compareBytes, hxz]
        · by_cases hyx : y < x
          · simp [compareBytes, hxy, hyx] at hab
          · have hxy2 : x = y := by omega
            by_cases hyz : y < z
            · have hxz : x < z := by omega
              simp [compareBytes, hxz]
            · by_cases hzy : z < y
              · simp [compareBytes, hyz, hzy] at hbc
              · have hyz2 : y = z := by omega
                have hxz1 : ¬ x < z := by omega
                have hxz2 : ¬ z < x := by omega
                simp [compareBytes, hxy, hyx, hyz, hzy, hxz1, hxz2] at hab hbc ⊢
                exact ih tb tc hab hbc

theorem timeIdSwap_asym (t : α → Nat) (idb : α → List Nat) :
    ∀ a b, timeIdSwap t idb a b = true → timeIdSwap t idb b a = false := by
  intro a b h
  by_cases h1 : t a > t b
  · have h2 : ¬ t b > t a := by omega
    have h3 : ¬ t b = t a := by omega
    simp [timeIdSwap, h2, h3]
  · by_cases h2 : t a = t b
    · rw [timeIdSwap, if_neg h1, if_pos h2] at h
      have hcmp : compareBytes (idb a) (idb b) > 0 := by simpa using h
      have hrev : compareBytes (idb b) (idb a) < 0 := by
        have := compareBytes_antisym (idb b) (idb a)
        omega
      have h3 : ¬ t b > t a := by omega
      rw [timeIdSwap, if_neg h3, if_pos h2.symm]
      simp
      omega
    · rw [timeIdSwap, if_neg h1, if_neg h2] at h
      exact absurd h (by simp)

theorem timeIdSwap_trans (t : α → Nat) (idb : α → List Nat) :
    ∀ a b c, timeIdSwap t idb a b = false → timeIdSwap t idb b c = false →
      timeIdSwap t idb a c = false := by
  intro a b c hab hbc
  rw [timeIdSwap] at hab hbc ⊢
  by_cases h1 : t a > t b
  · rw [if_pos h1] at hab
    exact absurd hab (by simp)
  · rw [if_neg h1] at hab
    by_cases h2 : t b > t c
    · rw [if_pos h2] at hbc
      exact absurd hbc (by simp)
    · rw [if_neg h2] at hbc
      have hac1 : ¬ t a > t c := by
        by_cases he1 : t a = t b <;> by_cases he2 : t b = t c <;> omega
      rw [if_neg hac1]
      by_cases hac2 : t a = t c
      · rw [if_pos hac2]
        have he1 : t a = t b := by omega
        have he2 : t b = t c := by omega
        rw [if_pos he1] at hab
        rw [if_pos he2] at hbc
        have c1 : compareBytes (idb a) (idb b) ≤ 0 := by
          simp at hab
          omega
        have c2 : compareBytes (idb b) (idb c) ≤ 0 := by
          simp at hbc
          omega
        have c3 := compareBytes_le_trans (idb a) (idb b) (idb c) c1 c2
        simp
        omega
      · rw [if_neg hac2]

/-- C6: after every DecodeLines call the span list is sorted ascending by
(start time, span id) and the log list ascending by (time, span id), ties
broken by lexicographic comparison of the span-id bytes. -/
theorem C6_outputs_sorted (d : Decoder) (now : Nat) (lines : List Line) :
    List.Chain' spanOrdered (DecodeLines d now lines).2.1 ∧
    List.Chain' logOrdered (DecodeLines d now lines).2.2 := by
  constructor
  · have h := bubbleSort_sorted (timeIdSwap Span.startTimeUnixNano Span.spanId)
      (timeIdSwap_asym _ _) (timeIdSwap_trans _ _) (processAll d now lines).2.1
    have h2 : (DecodeLines d now lines).2.1 =
        bubbleSort (timeIdSwap Span.startTimeUnixNano Span.spanId) (processAll d now lines).2.1 :=
      rfl
    rw [h2]
    refine h.imp ?_
    intro a b hab
    rw [timeIdSwap] at hab
    by_cases h1 : a.startTimeUnixNano > b.startTimeUnixNano
    · rw [if_pos h1] at hab
      exact absurd hab (by simp)
    · by_cases h2 : a.startTimeUnixNano = b.startTimeUnixNano
      · rw [if_neg h1, if_pos h2] at hab
        refine Or.inr ⟨h2, ?_⟩
        simp at hab
        omega
      · exact Or.inl (by omega)
  · have h := bubbleSort_sorted (timeIdSwap LogRecord.timeUnixNano LogRecord.spanId)
      (timeIdSwap_asym _ _) (timeIdSwap_trans _ _) (processAll d now lines).2.2
    have h2 : (DecodeLines d now lines).2.2 =
        bubbleSort (timeIdSwap LogRecord.timeUnixNano LogRecord.spanId)
          (processAll d now lines).2.2 :=
      rfl
    rw [h2]
    refine h.imp ?_
    intro a b hab
    rw [timeIdSwap] at hab
    by_cases h1 : a.timeUnixNano > b.timeUnixNano
    · rw [if_pos h1] at hab
      exact absurd hab (by simp)
    · by_cases h2 : a.timeUnixNano = b.timeUnixNano
      · rw [if_neg h1, if_pos h2] at hab
        refine Or.inr ⟨h2, ?_⟩
        simp at hab
        omega
      · exact Or.inl (by omega)



/-! ## Claim C10 -/

theorem strSwap_asym (a b : String) (h : strSwap a b = true) : strSwap b a = false := by
  rw [strSwap] at h ⊢
  have hlt : b < a := of_decide_eq_true h
  simpa using lt_asymm hlt

theorem strSwap_le_trans (a b c : String) (hab : strSwap a b = false)
    (hbc : strSwap b c = false) : strSwap a c = false := by
  rw [strSwap] at hab hbc ⊢
  have h1 : a ≤ b := le_of_not_lt (of_decide_eq_false hab)
  have h2 : b ≤ c := le_of_not_lt (of_decide_eq_false hbc)
  simpa using not_lt_of_le (h1.trans h2)

theorem strLe_iff (a b : String) : strLe a b = true ↔ a ≤ b := by
  rw [strLe, strSwap]
  simp [le_of_not_lt, not_lt]

theorem chainB_iff (le : α → α → Bool) :
    ∀ l : List α, chainB le l = true ↔ List.Chain' (fun a b => le a b = true) l
  | [] => by simp [chainB]
  | [a] => by simp [chainB]
  | a :: b :: t => by
    rw [show chainB le (a :: b :: t) = (le a b && chainB le (b :: t)) from by simp [chainB]]
    rw [Bool.and_eq_true, chainB_iff le (b :: t), List.chain'_cons]
termination_by l => l.length

theorem deepSorted_kvlist (kvs : List (String × AnyValue)) :
    deepSorted (AnyValue.kvlist kvs) = true ↔
      (chainB (fun a b => strLe a.1 b.1) kvs = true ∧ ∀ kv ∈ kvs, deepSorted kv.2 = true) := by
  rw [show deepSorted (AnyValue.kvlist kvs) =
      (chainB (fun a b => strLe a.1 b.1) kvs && kvs.attach.all (fun kv => deepSorted kv.1.2))
    from by rw [deepSorted]]
  rw [Bool.and_eq_true, List.all_eq_true]
  constructor
  · rintro ⟨h1, h2⟩
    exact ⟨h1, fun kv hkv => h2 ⟨kv, hkv⟩ (List.mem_attach _ _)⟩
  · rintro ⟨h1, h2⟩
    exact ⟨h1, fun kv _ => h2 kv.1 kv.2⟩

theorem deepSorted_arr (vs : List AnyValue) :
    deepSorted (AnyValue.arr vs) = true ↔ ∀ v ∈ vs, deepSorted v = true := by
  rw [show deepSorted (AnyValue.arr vs) = vs.attach.all (fun v => deepSorted v.1) from by
    rw [deepSorted]]
  rw [List.all_eq_true]
  constructor
  · intro h v hv
    exact h ⟨v, hv⟩ (List.mem_attach _ _)
  · intro h v _
    exact h v.1 v.2

theorem convertAttributesFromMap_keys_sorted (m : JObj) :
    List.Chain' (fun a b : KeyValue => a.1 ≤ b.1) (convertAttributesFromMap m) := by
  have h := bubbleSort_sorted (fun a b : KeyValue => strSwap a.1 b.1)
    (fun a b hab => strSwap_asym a.1 b.1 hab)
    (fun a b c hab hbc => strSwap_le_trans a.1 b.1 c.1 hab hbc)
    (m.map (fun kv => jsonValueToKeyValue kv.1 kv.2))
  refine h.imp ?_
  intro a b hab
  have : ¬ b.1 < a.1 := by
    intro hc
    rw [show strSwap a.1 b.1 = true from by simp [strSwap, hc]] at hab
    exact absurd hab (by simp)
  exact le_of_not_lt this

theorem deepSorted_jsonToAny_aux :
    ∀ (n : Nat) (v : JVal), sizeOf v ≤ n → deepSorted (jsonToAny v) = true := by
  intro n
  induction n with
  | zero =>
    intro v h
    cases v <;> simp at h
  | succ n ih =>
    intro v h
    cases v with
    | str s =>
      rw [jsonToAny_str]
      simp [deepSorted]
    | num x =>
      rw [jsonToAny_num]
      simp [deepSorted]
    | bool b =>
      rw [jsonToAny_boolv]
      simp [deepSorted]
    | null =>
      rw [jsonToAny_null]
      simp [deepSorted]
    | arr items =>
      rw [jsonToAny_arr, deepSorted_arr]
      intro x hx
      rcases List.mem_map.mp hx with ⟨w, hw, rfl⟩
      have hsz : sizeOf w < sizeOf items := List.sizeOf_lt_of_mem hw
      have hb : sizeOf (JVal.arr items) = 1 + sizeOf items := by simp
      exact ih w (by omega)
    | obj fields =>
      rw [jsonToAny_obj, deepSorted_kvlist]
      constructor
      · rw [chainB_iff]
        have h := convertAttributesFromMap_keys_sorted fields
        rw [convertAttributesFromMap] at h
        refine h.imp ?_
        intro a b hab
        exact (strLe_iff a.1 b.1).mpr hab
      · intro kv hkv
        have hkv2 : kv ∈ (fields.map (fun kv => (kv.1, jsonToAny kv.2))) :=
          (bubbleSort_perm _ _).subset hkv
        rcases List.mem_map.mp hkv2 with ⟨p, hp, rfl⟩
        have hsz : sizeOf p < sizeOf fields := List.sizeOf_lt_of_mem hp
        have hsz2 : sizeOf p.2 < sizeOf p := by
          rcases p with ⟨k, w⟩
          simp
        have hb : sizeOf (JVal.obj fields) = 1 + sizeOf fields := by simp
        exact ih p.2 (by omega)

theorem deepSorted_jsonToAny (v : JVal) : deepSorted (jsonToAny v) = true :=
  deepSorted_jsonToAny_aux (sizeOf v) v le_rfl

/-- C10: the attributes extracted from a record's nested `attributes` object
are appended after the accumulator in ascending lexicographic key order, with
every nested map value recursively key-sorted, followed by one trailing
`event_type` attribute exactly when the record carries a non-empty
`event_type` field. -/
theorem C10_extract_attributes_sorted (obj : JObj) (prior : List KeyValue) :
    extractAttributes obj prior =
      prior ++ convertAttributesFromMap (attributesObjOf obj) ++ eventTypeAttrOf obj ∧
    List.Chain' (fun a b : KeyValue => a.1 ≤ b.1)
      (convertAttributesFromMap (attributesObjOf obj)) ∧
    (∀ kv ∈ convertAttributesFromMap (attributesObjOf obj), deepSorted kv.2 = true) := by
  refine ⟨?_, convertAttributesFromMap_keys_sorted _, ?_⟩
  · have hnil : convertAttributesFromMap ([] : JObj) = [] := rfl
    cases hx : jlookup ("attributes") obj with
    | none =>
      by_cases he : stringFrom obj ("event_type") = "" <;>
        simp [extractAttributes, attributesObjOf, eventTypeAttrOf, hx, he, hnil]
    | some v =>
      cases v <;> (by_cases he : stringFrom obj ("event_type") = "" <;>
        simp [extractAttributes, attributesObjOf, eventTypeAttrOf, hx, he, hnil])
  · intro kv hkv
    have hkv2 : kv ∈ ((attributesObjOf obj).map (fun kv => (kv.1, jsonToAny kv.2))) := by
      rw [convertAttributesFromMap] at hkv
      exact (bubbleSort_perm _ _).subset hkv
    rcases List.mem_map.mp hkv2 with ⟨p, _, rfl⟩
    exact deepSorted_jsonToAny p.2

/-! ## Claim C7 -/

/-! ## Claim C7 -/

theorem mergeIds_parts (p : PendingSpan) (obj : JObj) (id : String) :
    (mergeIds p obj id).start = p.start ∧ (mergeIds p obj id).endT = p.endT ∧
    (mergeIds p obj id).events = p.events ∧ (mergeIds p obj id).statusCode = p.statusCode ∧
    (mergeIds p obj id).statusMessage = p.statusMessage := by
  refine ⟨?_, ?_, ?_, ?_, ?_⟩ <;> (unfold mergeIds; dsimp only; repeat' split) <;> rfl

theorem spanEndMerge_parts (p : PendingSpan) (obj : JObj) :
    (spanEndMerge p obj).start = p.start ∧
    (spanEndMerge p obj).events = p.events ++ extractEvents obj := by
  refine ⟨?_, ?_⟩ <;> (unfold spanEndMerge; dsimp only; repeat' split) <;> rfl

theorem applyExceptionStatus_parts (p : PendingSpan) :
    (applyExceptionStatus p).start = p.start ∧ (applyExceptionStatus p).endT = p.endT ∧
    (applyExceptionStatus p).events = p.events := by
  refine ⟨?_, ?_, ?_⟩ <;> (unfold applyExceptionStatus; dsimp only; repeat' split) <;> rfl

theorem testFailAttrs_mem (attrsObj td : JObj) :
    ("exception.type", AnyValue.str ("dbt.TestFailure")) ∈ testFailAttrs attrsObj td ∧
    ("exception.message", AnyValue.str (testFailMsg attrsObj td)) ∈ testFailAttrs attrsObj td := by
  unfold testFailAttrs
  dsimp only
  split <;> simp

theorem applyTestFailure_spec (p : PendingSpan) (attrsObj td : JObj)
    (h1 : jlookup ("node_test_detail") attrsObj = some (JVal.obj td))
    (h2 : stringFrom td ("test_outcome") = "TEST_OUTCOME_FAILED") :
    (applyTestFailure p attrsObj).statusCode = STATUS_CODE_ERROR ∧
    (applyTestFailure p attrsObj).start = p.start ∧
    (applyTestFailure p attrsObj).events = p.events ++
      [({ name := "exception", timeUnixNano := p.endT, attributes := testFailAttrs attrsObj td } : SpanEvent)] := by
  simp only [applyTestFailure, h1, h2, if_pos]
  split <;> exact ⟨rfl, rfl, by simp [testFailAttrs, testFailMsg]⟩

theorem applyNodeOutcome_parts (p : PendingSpan) (attrsObj : JObj) :
    (applyNodeOutcome p attrsObj).start = p.start ∧
    (p.statusCode = STATUS_CODE_ERROR →
      (applyNodeOutcome p attrsObj).statusCode = STATUS_CODE_ERROR) ∧
    ∃ suf, (applyNodeOutcome p attrsObj).events = p.events ++ suf := by
  unfold applyNodeOutcome
  dsimp only
  split
  · split
    · exact ⟨rfl, fun _ => rfl, ⟨_, rfl⟩⟩
    · exact ⟨rfl, fun _ => rfl, ⟨_, rfl⟩⟩
  · exact ⟨rfl, fun h => h, ⟨[], by simp⟩⟩

theorem buildSpan_parts (p : PendingSpan) (h : ¬ p.start = 0) :
    ∃ sp, buildSpan p = some sp ∧ sp.events = p.events ∧
      sp.status = (if p.statusCode = STATUS_CODE_UNSET then none
        else some { code := p.statusCode, message := p.statusMessage }) := by
  simp only [buildSpan, if_neg h]
  refine ⟨_, rfl, ?_, ?_⟩
  · repeat' split
    all_goals rfl
  · by_cases hsc : p.statusCode = STATUS_CODE_UNSET
    · rw [if_pos hsc, if_neg (by simp [hsc])]
      split <;> rfl
    · rw [if_neg hsc, if_pos hsc]

/-- C7: a SpanEnd record whose attributes carry a nested `node_test_detail`
with the failed sentinel, arriving for a span whose start time is known,
makes the decoder emit exactly one span whose status code is ERROR and which
carries an `exception` event holding `exception.type` and an
`exception.message` composed from the failing-row count and, when present,
the unique identifier. -/
theorem C7_failed_test_exception (d : Decoder) (now : Nat) (obj : JObj) (id : String)
    (p0 : PendingSpan) (attrsObj td : JObj)
    (hrt : stringFrom obj ("record_type") = "SpanEnd")
    (hcut : ¬ (0 < recordTimeNano obj ∧ recordTimeNano obj < d.cutoffTimeNano))
    (hid : stringFrom obj ("span_id") = id) (hidne : id ≠ "")
    (hfind : findPartial d.spanPartials id = some p0) (hstart : 0 < p0.start)
    (hattr : jlookup ("attributes") obj = some (JVal.obj attrsObj))
    (htd : jlookup ("node_test_detail") attrsObj = some (JVal.obj td))
    (hout : stringFrom td ("test_outcome") = "TEST_OUTCOME_FAILED") :
    ∃ sp, (processLine d now (some obj)).2.1 = [sp] ∧
      (∃ st, sp.status = some st ∧ st.code = STATUS_CODE_ERROR) ∧
      ∃ ev ∈ sp.events, ev.name = "exception" ∧
        ("exception.type", AnyValue.str ("dbt.TestFailure")) ∈ ev.attributes ∧
        ("exception.message", AnyValue.str (testFailMsg attrsObj td)) ∈ ev.attributes := by
  have hne : stringFrom obj ("record_type") ≠ "" := by
    rw [hrt]
    decide
  have hb : (decide (stringFrom obj ("record_type") = "SpanStart")) = false := by
    rw [hrt]
    decide
  have hplr : (processLine d now (some obj)).2.1 =
      (processSpanRecord d.spanPartials now obj false).2 := by
    simp only [processLine]
    rw [if_neg hne, if_neg hcut, if_pos (Or.inr hrt), hb]
  set q := applyExceptionStatus (spanEndMerge (mergeIds p0 obj id) obj) with hq
  have hfs : ∀ r : PendingSpan, applyFailureSynthesis r obj =
      applyNodeOutcome (applyTestFailure r attrsObj) attrsObj := by
    intro r
    simp [applyFailureSynthesis, hattr]
  obtain ⟨htf_code, htf_start, htf_events⟩ := applyTestFailure_spec q attrsObj td htd hout
  obtain ⟨hno_start, hno_code, suf, hno_events⟩ :=
    applyNodeOutcome_parts (applyTestFailure q attrsObj) attrsObj
  set p1 := applyFailureSynthesis q obj with hp1
  have hp1e : p1 = applyNodeOutcome (applyTestFailure q attrsObj) attrsObj := hfs q
  have hq_start : q.start = p0.start := by
    rw [hq, (applyExceptionStatus_parts _).1, (spanEndMerge_parts _ _).1, (mergeIds_parts _ _ _).1]
  have hp1_start : p1.start = p0.start := by
    rw [hp1e, hno_start, htf_start, hq_start]
  have hp1_code : p1.statusCode = STATUS_CODE_ERROR := by
    rw [hp1e]
    exact hno_code htf_code
  have hev_mem : ({ name := "exception", timeUnixNano := q.endT, attributes := testFailAttrs attrsObj td } : SpanEvent) ∈ p1.events := by
    rw [hp1e, hno_events, htf_events]
    simp
  obtain ⟨sp, hbuild, hsp_events, hsp_status⟩ := buildSpan_parts p1 (by omega)
  have hrec : (processSpanRecord d.spanPartials now obj false).2 =
      [{ sp with attributes := defaultAttributeTransformer sp.attributes }] := by
    simp only [processSpanRecord, hid]
    rw [if_neg hidne, hfind]
    simp only [Option.getD_some, Bool.false_eq_true, if_false]
    rw [← hq, ← hp1]
    rw [if_pos (by omega : p1.start > 0), hbuild]
  refine ⟨{ sp with attributes := defaultAttributeTransformer sp.attributes },
    by rw [hplr, hrec], ?_, ?_⟩
  · refine ⟨{ code := p1.statusCode, message := p1.statusMessage }, ?_, hp1_code⟩
    show sp.status = _
    rw [hsp_status, if_neg (by rw [hp1_code]; decide)]
  · refine ⟨({ name := "exception", timeUnixNano := q.endT, attributes := testFailAttrs attrsObj td } : SpanEvent), ?_, rfl,
      (testFailAttrs_mem attrsObj td).1, (testFailAttrs_mem attrsObj td).2⟩
    show _ ∈ sp.events
    rw [hsp_events]
    exact hev_mem

theorem C7_failed_test_exception_witness :
    ∃ sp,
      (processLine
        { cutoffTimeNano := 0, spanPartials := [(("ab" : String), startedPartial ("ab") 5)] } 7
        failedTestEndLine).2.1 = [sp] ∧
      (∃ st, sp.status = some st ∧ st.code = STATUS_CODE_ERROR) ∧
      ∃ ev ∈ sp.events, ev.name = "exception" ∧
        ("exception.type", AnyValue.str ("dbt.TestFailure")) ∈ ev.attributes ∧
        ("exception.message", AnyValue.str (testFailMsg
          [("unique_id", JVal.str ("test.my_model")),
            ("node_test_detail", JVal.obj
              [("test_outcome", JVal.str ("TEST_OUTCOME_FAILED")), ("failing_rows", JVal.num 3)])]
          [("test_outcome", JVal.str ("TEST_OUTCOME_FAILED")), ("failing_rows", JVal.num 3)])) ∈
          ev.attributes :=
  C7_failed_test_exception _ 7 _ ("ab") (startedPartial ("ab") 5)
    [("unique_id", JVal.str ("test.my_model")),
      ("node_test_detail", JVal.obj
        [("test_outcome", JVal.str ("TEST_OUTCOME_FAILED")), ("failing_rows", JVal.num 3)])]
    [("test_outcome", JVal.str ("TEST_OUTCOME_FAILED")), ("failing_rows", JVal.num 3)]
    rfl (by decide) rfl (by decide) rfl (by decide) rfl rfl rfl

/-! ## Claim C2 -/

theorem findPartial_set_self (ps : List (String × PendingSpan)) (id : String) (p : PendingSpan) :
    findPartial (setPartial ps id p) id = some p := by
  induction ps with
  | nil => simp [setPartial, findPartial]
  | cons kv rest ih =>
    rcases kv with ⟨k, q⟩
    by_cases h : k = id
    · simp [setPartial, h, findPartial]
    · simp [setPartial, h, findPartial, ih]

theorem findPartial_set_other (ps : List (String × PendingSpan)) (id id2 : String)
    (p : PendingSpan) (h : id2 ≠ id) :
    findPartial (setPartial ps id p) id2 = findPartial ps id2 := by
  induction ps with
  | nil => simp [setPartial, findPartial, Ne.symm h]
  | cons kv rest ih =>
    rcases kv with ⟨k, q⟩
    by_cases hk : k = id
    · subst hk
      simp [setPartial, findPartial, Ne.symm h]
    · simp [setPartial, hk, findPartial, ih]

theorem findPartial_remove_self (ps : List (String × PendingSpan)) (id : String) :
    findPartial (removePartial ps id) id = none := by
  induction ps with
  | nil => simp [removePartial, findPartial]
  | cons kv rest ih =>
    rcases kv with ⟨k, q⟩
    by_cases h : k = id
    · simpa [removePartial, List.filter_cons, h] using ih
    · simpa [removePartial, List.filter_cons, h, findPartial] using ih

theorem findPartial_remove_other (ps : List (String × PendingSpan)) (id id2 : String)
    (h : id2 ≠ id) : findPartial (removePartial ps id) id2 = findPartial ps id2 := by
  induction ps with
  | nil => simp [removePartial, findPartial]
  | cons kv rest ih =>
    rcases kv with ⟨k, q⟩
    by_cases hk : k = id
    · subst hk
      simpa [removePartial, List.filter_cons, findPartial, Ne.symm h] using ih
    · by_cases hk2 : k = id2
      · simp [removePartial, List.filter_cons, hk, findPartial, hk2, h]
      · simpa [removePartial, List.filter_cons, hk, findPartial, hk2] using ih

theorem histOf_nil (id : String) : histOf id [] = [] := rfl

theorem histOf_append (id : String) (l1 l2 : List SpanEvt) :
    histOf id (l1 ++ l2) = histOf id l1 ++ histOf id l2 := by
  simp [histOf, List.filter_append]

theorem histOf_cons_self (id : String) (e : SpanEvt) (l : List SpanEvt) (h : e.evtId = id) :
    histOf id (e :: l) = e :: histOf id l := by
  simp [histOf, List.filter_cons, h]

theorem histOf_cons_other (id : String) (e : SpanEvt) (l : List SpanEvt) (h : e.evtId ≠ id) :
    histOf id (e :: l) = histOf id l := by
  simp [histOf, List.filter_cons, h]

theorem histOf_sublist (id : String) (l : List SpanEvt) : (histOf id l).Sublist l :=
  List.filter_sublist _

theorem histOf_mem_evtId (id : String) (l : List SpanEvt) (x : SpanEvt)
    (hx : x ∈ histOf id l) : x ∈ l ∧ x.evtId = id := by
  simp only [histOf, List.mem_filter, beq_iff_eq] at hx
  exact hx

theorem sameKind_self (e : SpanEvt) : sameKind e e = true := by
  simp [sameKind]

theorem wf_evt_ok (evs : List SpanEvt) (hwf : wfEvents evs = true) (e : SpanEvt)
    (he : e ∈ evs) :
    e.evtId ≠ "" ∧ ∃ n, parseUint64 e.tsOf = some n ∧ (e.isStart = true → 0 < n) := by
  simp only [wfEvents, Bool.and_eq_true, List.all_eq_true] at hwf
  have h := hwf.1 e he
  cases hp : parseUint64 e.tsOf with
  | none =>
    rw [hp] at h
    simp at h
  | some n =>
    rw [hp] at h
    simp only [Bool.and_eq_true, bne_iff_ne, Bool.or_eq_true, Bool.not_eq_eq_eq_not,
      Bool.not_true, decide_eq_true_eq] at h
    refine ⟨h.1, n, rfl, fun hs => ?_⟩
    rcases h.2 with h2 | h2
    · rw [hs] at h2
      cases h2
    · exact h2

theorem wf_count_le (evs : List SpanEvt) (hwf : wfEvents evs = true) (e : SpanEvt)
    (he : e ∈ evs) : evs.countP (fun x => sameKind e x) ≤ 1 := by
  simp only [wfEvents, Bool.and_eq_true, List.all_eq_true] at hwf
  have h := hwf.2 e he
  simpa using h

theorem wf_not_two (evs : List SpanEvt) (hwf : wfEvents evs = true) (a b : SpanEvt)
    (hsub : List.Sublist [a, b] evs) (hk : sameKind a b = true) : False := by
  have ha : a ∈ evs := hsub.subset (by simp)
  have h1 := wf_count_le evs hwf a ha
  have h2 := hsub.countP_le (fun x => sameKind a x)
  simp [List.countP_cons, sameKind_self, hk] at h2
  omega

theorem hist_shape (evs : List SpanEvt) (hwf : wfEvents evs = true) (id : String)
    (h : List SpanEvt) (hsub : h.Sublist evs) (hid : ∀ x ∈ h, x.evtId = id) :
    h = [] ∨ (∃ ts, h = [SpanEvt.start id ts]) ∨ (∃ ts, h = [SpanEvt.stop id ts]) ∨
      (∃ ts1 ts2, h = [SpanEvt.start id ts1, SpanEvt.stop id ts2]) ∨
      (∃ ts1 ts2, h = [SpanEvt.stop id ts2, SpanEvt.start id ts1]) := by
  match h with
  | [] => exact Or.inl rfl
  | [a] =>
    have ha := hid a (by simp)
    rcases a with ⟨id0, ts⟩ | ⟨id0, ts⟩
    · refine Or.inr (Or.inl ⟨ts, ?_⟩)
      simp only [SpanEvt.evtId] at ha
      rw [ha]
    · refine Or.inr (Or.inr (Or.inl ⟨ts, ?_⟩))
      simp only [SpanEvt.evtId] at ha
      rw [ha]
  | a :: b :: t =>
    have ha := hid a (by simp)
    have hb := hid b (by simp)
    have hab : List.Sublist [a, b] (a :: b :: t) :=
      List.Sublist.cons₂ a (List.Sublist.cons₂ b (List.nil_sublist t))
    have hkab : ¬ sameKind a b = true := fun hk =>
      wf_not_two evs hwf a b (hab.trans hsub) hk
    have hkind : a.isStart ≠ b.isStart := by
      intro hkk
      exact hkab (by simp [sameKind, hkk, ha, hb])
    have ht : t = [] := by
      by_contra hne
      rcases List.exists_mem_of_ne_nil t hne with ⟨c, hc⟩
      have hcid := hid c (by simp [hc])
      have hcsub : List.Sublist [c] t := List.singleton_sublist.mpr hc
      by_cases hca : c.isStart = a.isStart
      · have : List.Sublist [a, c] (a :: b :: t) :=
          List.Sublist.cons₂ a (List.Sublist.cons b hcsub)
        exact wf_not_two evs hwf a c (this.trans hsub)
          (by simp [sameKind, hca, ha, hcid])
      · have hcb : c.isStart = b.isStart := by
          cases hx : a.isStart <;> cases hy : b.isStart <;> cases hz : c.isStart <;>
            simp_all
        have : List.Sublist [b, c] (a :: b :: t) :=
          List.Sublist.cons a (List.Sublist.cons₂ b hcsub)
        exact wf_not_two evs hwf b c (this.trans hsub)
          (by simp [sameKind, hcb, hb, hcid])
    subst ht
    rcases a with ⟨ida, tsa⟩ | ⟨ida, tsa⟩ <;> rcases b with ⟨idb, tsb⟩ | ⟨idb, tsb⟩
    · simp [SpanEvt.isStart] at hkind
    · refine Or.inr (Or.inr (Or.inr (Or.inl ⟨tsa, tsb, ?_⟩)))
      simp only [SpanEvt.evtId] at ha hb
      rw [ha, hb]
    · refine Or.inr (Or.inr (Or.inr (Or.inr ⟨tsb, tsa, ?_⟩)))
      simp only [SpanEvt.evtId] at ha hb
      rw [ha, hb]
    · simp [SpanEvt.isStart] at hkind


theorem parseUint64_empty : parseUint64 "" = none := rfl

theorem decodeHex_empty : decodeHex "" = [] := rfl

theorem startObj_record_type (id ts : String) :
    stringFrom (startObj id ts) ("record_type") = "SpanStart" := rfl

theorem startObj_span_id (id ts : String) : stringFrom (startObj id ts) ("span_id") = id := rfl

theorem startObj_span_name (id ts : String) :
    stringFrom (startObj id ts) ("span_name") = "" := rfl

theorem startObj_trace_id (id ts : String) : stringFrom (startObj id ts) ("trace_id") = "" := rfl

theorem startObj_parent (id ts : String) :
    stringFrom (startObj id ts) ("parent_span_id") = "" := rfl

theorem startObj_start_ts (id ts : String) :
    stringFrom (startObj id ts) ("start_time_unix_nano") = ts := rfl

theorem startObj_event_type (id ts : String) :
    stringFrom (startObj id ts) ("event_type") = "" := rfl

theorem startObj_attributes (id ts : String) : jlookup ("attributes") (startObj id ts) = none :=
  rfl

theorem startObj_events (id ts : String) : jlookup ("events") (startObj id ts) = none := rfl

theorem stopObj_record_type (id ts : String) :
    stringFrom (stopObj id ts) ("record_type") = "SpanEnd" := rfl

theorem stopObj_span_id (id ts : String) : stringFrom (stopObj id ts) ("span_id") = id := rfl

theorem stopObj_trace_id (id ts : String) : stringFrom (stopObj id ts) ("trace_id") = "" := rfl

theorem stopObj_parent (id ts : String) :
    stringFrom (stopObj id ts) ("parent_span_id") = "" := rfl

theorem stopObj_end_ts (id ts : String) :
    stringFrom (stopObj id ts) ("end_time_unix_nano") = ts := rfl

theorem stopObj_event_type (id ts : String) :
    stringFrom (stopObj id ts) ("event_type") = "" := rfl

theorem stopObj_attributes (id ts : String) : jlookup ("attributes") (stopObj id ts) = none := rfl

theorem stopObj_events (id ts : String) : jlookup ("events") (stopObj id ts) = none := rfl

theorem stopObj_status (id ts : String) : jlookup ("status") (stopObj id ts) = none := rfl

theorem processLine_on_start (ps : List (String × PendingSpan)) (now : Nat) (id ts : String)
    (hid : id ≠ "") (n : Nat) (hts : parseUint64 ts = some n) :
    processLine { cutoffTimeNano := 0, spanPartials := ps } now (startLine id ts) =
      ({ cutoffTimeNano := 0,
          spanPartials := setPartial ps id
            ({ (findPartial ps id).getD {} with spanID := id, start := n } : PendingSpan) },
        [], []) := by
  have hts0 : ts ≠ "" := by
    intro h
    rw [h, parseUint64_empty] at hts
    cases hts
  simp [processLine, startLine, startObj_record_type, startObj_span_id, startObj_span_name,
    startObj_trace_id, startObj_parent, startObj_start_ts, startObj_event_type,
    startObj_attributes, startObj_events, Nat.not_lt_zero, processSpanRecord, hid, mergeIds,
    spanStartMerge, hts0, parseNano, hts, extractAttributes, extractEvents]

theorem processLine_on_stop_fresh (ps : List (String × PendingSpan)) (now : Nat)
    (id ts : String) (hid : id ≠ "") (m : Nat) (hts : parseUint64 ts = some m)
    (hfind : findPartial ps id = none) :
    processLine { cutoffTimeNano := 0, spanPartials := ps } now (stopLine id ts) =
      ({ cutoffTimeNano := 0, spanPartials := setPartial ps id (stoppedPartial id m) }, [],
        []) := by
  have hts0 : ts ≠ "" := by
    intro h
    rw [h, parseUint64_empty] at hts
    cases hts
  simp [processLine, stopLine, stopObj_record_type, stopObj_span_id, stopObj_trace_id,
    stopObj_parent, stopObj_end_ts, stopObj_event_type, stopObj_attributes, stopObj_events,
    stopObj_status, Nat.not_lt_zero, processSpanRecord, hid, hfind, mergeIds, spanEndMerge,
    hts0, parseNano, hts, extractAttributes, extractEvents, applyExceptionStatus,
    applyFailureSynthesis, stoppedPartial]

theorem processLine_on_stop_started (ps : List (String × PendingSpan)) (now : Nat)
    (id ts : String) (hid : id ≠ "") (m : Nat) (hts : parseUint64 ts = some m) (n : Nat)
    (hn : 0 < n) (hfind : findPartial ps id = some (startedPartial id n)) :
    processLine { cutoffTimeNano := 0, spanPartials := ps } now (stopLine id ts) =
      ({ cutoffTimeNano := 0,
          spanPartials := removePartial (setPartial ps id (bothPartial id n m)) id },
        [expectedSpanOf id n m], []) := by
  have hts0 : ts ≠ "" := by
    intro h
    rw [h, parseUint64_empty] at hts
    cases hts
  have hne : n ≠ 0 := Nat.pos_iff_ne_zero.mp hn
  by_cases hm : m = 0 <;>
    simp [processLine, stopLine, stopObj_record_type, stopObj_span_id, stopObj_trace_id,
      stopObj_parent, stopObj_end_ts, stopObj_event_type, stopObj_attributes, stopObj_events,
      stopObj_status, Nat.not_lt_zero, processSpanRecord, hid, hfind, mergeIds, spanEndMerge,
      hts0, parseNano, hts, extractAttributes, extractEvents, applyExceptionStatus,
      applyFailureSynthesis, startedPartial, bothPartial, hn, hne, buildSpan,
      STATUS_CODE_UNSET, deduplicateAttributes, dedupSeen, defaultAttributeTransformer,
      expectedSpanOf, decodeHex_empty, hm]


theorem pairedEntry_on_start (evs : List SpanEvt) (id ts : String) :
    pairedEntry evs (SpanEvt.start id ts) = none := rfl

theorem pairedEntry_head_stop (evs : List SpanEvt) (id ts id2 ts2 : String)
    (t : List SpanEvt) (hh : histOf id evs = SpanEvt.stop id2 ts2 :: t) :
    pairedEntry evs (SpanEvt.stop id ts) = none := by
  simp only [pairedEntry]
  rw [hh]

theorem pairedEntry_paired (evs : List SpanEvt) (id ts ts1 : String)
    (hh : histOf id evs = [SpanEvt.start id ts1, SpanEvt.stop id ts]) :
    pairedEntry evs (SpanEvt.stop id ts) =
      some (expectedSpanOf id (parseD ts1) (parseD ts)) := by
  simp only [pairedEntry]
  rw [hh]

theorem processAll_pairing (evs : List SpanEvt) (hwf : wfEvents evs = true)
    (rest : List SpanEvt) :
    ∀ (pre : List SpanEvt) (ps : List (String × PendingSpan)) (now : Nat),
      evs = pre ++ rest →
      (∀ id, findPartial ps id = expectedPartialFor id (histOf id pre)) →
      (processAll { cutoffTimeNano := 0, spanPartials := ps } now
          (rest.map evtLine)).2.1 = rest.filterMap (pairedEntry evs) := by
  induction rest with
  | nil =>
    intro pre ps now hsplit hinv
    simp [processAll]
  | cons e rest2 ih =>
    intro pre ps now hsplit hinv
    rcases e with ⟨id, ts⟩ | ⟨id, ts⟩
    · -- SpanStart record
      have hein : SpanEvt.start id ts ∈ evs := by
        rw [hsplit]
        simp
      obtain ⟨hid0, n, hts0, hpos⟩ := wf_evt_ok evs hwf _ hein
      have hid : id ≠ "" := hid0
      have hts : parseUint64 ts = some n := hts0
      have hsub_pre : (histOf id pre).Sublist evs := by
        rw [hsplit]
        exact (histOf_sublist _ _).trans (List.sublist_append_left _ _)
      have hshape := hist_shape evs hwf id (histOf id pre) hsub_pre
        (fun x hx => (histOf_mem_evtId _ _ _ hx).2)
      have hnostart : ∀ x ∈ histOf id pre, x.isStart = false := by
        intro x hx
        rcases histOf_mem_evtId id pre x hx with ⟨hxpre, hxid⟩
        rcases x with ⟨xi, xt⟩ | ⟨xi, xt⟩
        · exfalso
          have hxi : xi = id := hxid
          have hsubx : List.Sublist [SpanEvt.start xi xt, SpanEvt.start id ts] evs := by
            rw [hsplit]
            exact List.Sublist.append (List.singleton_sublist.mpr hxpre)
              (List.Sublist.cons₂ _ (List.nil_sublist _))
          exact wf_not_two evs hwf _ _ hsubx
            (by simp [sameKind, SpanEvt.isStart, SpanEvt.evtId, hxi])
        · rfl
      rcases hshape with h0 | ⟨ts1, h1⟩ | ⟨ts2, h2⟩ | ⟨ts1, ts2, h3⟩ | ⟨ts1, ts2, h4⟩
      · -- nothing seen for this id yet
        have hfind : findPartial ps id = none := by
          rw [hinv id, h0]
          rfl
        rw [List.map_cons, processAll_cons,
          show evtLine (SpanEvt.start id ts) = startLine id ts from rfl,
          processLine_on_start ps now id ts hid n hts]
        simp only [List.filterMap_cons, pairedEntry_on_start, List.nil_append]
        apply ih (pre ++ [SpanEvt.start id ts])
        · rw [hsplit]
          simp
        · intro id2
          by_cases hq : id2 = id
          · rw [hq, findPartial_set_self, histOf_append, h0]
            simp [histOf, List.filter_cons, SpanEvt.evtId, hfind, expectedPartialFor,
              parseD, hts, startedPartial]
          · rw [findPartial_set_other ps id id2 _ hq, hinv id2, histOf_append,
              histOf_cons_other id2 (SpanEvt.start id ts) [] (fun hh => hq (hh.symm)),
              histOf_nil, List.append_nil]
      · exact absurd (hnostart (SpanEvt.start id ts1) (by rw [h1]; simp))
          (by simp [SpanEvt.isStart])
      · -- a lone end is already pending
        have hfind : findPartial ps id = some (stoppedPartial id (parseD ts2)) := by
          rw [hinv id, h2]
          rfl
        rw [List.map_cons, processAll_cons,
          show evtLine (SpanEvt.start id ts) = startLine id ts from rfl,
          processLine_on_start ps now id ts hid n hts]
        simp only [List.filterMap_cons, pairedEntry_on_start, List.nil_append]
        apply ih (pre ++ [SpanEvt.start id ts])
        · rw [hsplit]
          simp
        · intro id2
          by_cases hq : id2 = id
          · rw [hq, findPartial_set_self, histOf_append, h2]
            simp [histOf, List.filter_cons, SpanEvt.evtId, hfind, expectedPartialFor,
              parseD, hts, stoppedPartial, bothPartial]
          · rw [findPartial_set_other ps id id2 _ hq, hinv id2, histOf_append,
              histOf_cons_other id2 (SpanEvt.start id ts) [] (fun hh => hq (hh.symm)),
              histOf_nil, List.append_nil]
      · exact absurd (hnostart (SpanEvt.start id ts1) (by rw [h3]; simp))
          (by simp [SpanEvt.isStart])
      · exact absurd (hnostart (SpanEvt.start id ts1) (by rw [h4]; simp))
          (by simp [SpanEvt.isStart])
    · -- SpanEnd record
      have hein : SpanEvt.stop id ts ∈ evs := by
        rw [hsplit]
        simp
      obtain ⟨hid0, m, hts0, hpos0⟩ := wf_evt_ok evs hwf _ hein
      have hid : id ≠ "" := hid0
      have hts : parseUint64 ts = some m := hts0
      have hsub_pre : (histOf id pre).Sublist evs := by
        rw [hsplit]
        exact (histOf_sublist _ _).trans (List.sublist_append_left _ _)
      have hshape := hist_shape evs hwf id (histOf id pre) hsub_pre
        (fun x hx => (histOf_mem_evtId _ _ _ hx).2)
      have hnostop : ∀ x ∈ histOf id pre, x.isStart = true := by
        intro x hx
        rcases histOf_mem_evtId id pre x hx with ⟨hxpre, hxid⟩
        rcases x with ⟨xi, xt⟩ | ⟨xi, xt⟩
        · rfl
        · exfalso
          have hxi : xi = id := hxid
          have hsubx : List.Sublist [SpanEvt.stop xi xt, SpanEvt.stop id ts] evs := by
            rw [hsplit]
            exact List.Sublist.append (List.singleton_sublist.mpr hxpre)
              (List.Sublist.cons₂ _ (List.nil_sublist _))
          exact wf_not_two evs hwf _ _ hsubx
            (by simp [sameKind, SpanEvt.isStart, SpanEvt.evtId, hxi])
      rcases hshape with h0 | ⟨ts1, h1⟩ | ⟨ts2, h2⟩ | ⟨ts1, ts2, h3⟩ | ⟨ts1, ts2, h4⟩
      · -- end before any start: partial retained, nothing emitted
        have hfind : findPartial ps id = none := by
          rw [hinv id, h0]
          rfl
        have hh : histOf id evs = SpanEvt.stop id ts :: histOf id rest2 := by
          rw [hsplit, histOf_append, h0, histOf_cons_self id (SpanEvt.stop id ts) rest2 rfl,
            List.nil_append]
        rw [List.map_cons, processAll_cons,
          show evtLine (SpanEvt.stop id ts) = stopLine id ts from rfl,
          processLine_on_stop_fresh ps now id ts hid m hts hfind]
        simp only [List.filterMap_cons,
          pairedEntry_head_stop evs id ts id ts (histOf id rest2) hh, List.nil_append]
        apply ih (pre ++ [SpanEvt.stop id ts])
        · rw [hsplit]
          simp
        · intro id2
          by_cases hq : id2 = id
          · rw [hq, findPartial_set_self, histOf_append, h0]
            simp [histOf, List.filter_cons, SpanEvt.evtId, expectedPartialFor, parseD, hts]
          · rw [findPartial_set_other ps id id2 _ hq, hinv id2, histOf_append,
              histOf_cons_other id2 (SpanEvt.stop id ts) [] (fun hh2 => hq (hh2.symm)),
              histOf_nil, List.append_nil]
      · -- matching start is pending: exactly one span is emitted
        have hs_mem_pre : SpanEvt.start id ts1 ∈ pre := by
          have hm : SpanEvt.start id ts1 ∈ histOf id pre := by
            rw [h1]
            simp
          exact (histOf_mem_evtId _ _ _ hm).1
        have hs_in : SpanEvt.start id ts1 ∈ evs := by
          rw [hsplit]
          exact List.mem_append_left _ hs_mem_pre
        obtain ⟨hid1, n1, hts1, hpos1⟩ := wf_evt_ok evs hwf _ hs_in
        have hts1b : parseUint64 ts1 = some n1 := hts1
        have hn1 : 0 < n1 := hpos1 rfl
        have hparse1 : parseD ts1 = n1 := by
          simp [parseD, hts1b]
        have hparse : parseD ts = m := by
          simp [parseD, hts]
        have hfind : findPartial ps id = some (startedPartial id n1) := by
          rw [hinv id, h1]
          simp [expectedPartialFor, hparse1]
        have hrest2 : histOf id rest2 = [] := by
          rcases hr : histOf id rest2 with _ | ⟨x, t⟩
          · rfl
          · exfalso
            have hx : x ∈ histOf id rest2 := by
              rw [hr]
              simp
            rcases histOf_mem_evtId _ _ _ hx with ⟨hxr, hxid⟩
            rcases x with ⟨xi, xt⟩ | ⟨xi, xt⟩
            · have hxi : xi = id := hxid
              have hsubx0 : List.Sublist ([SpanEvt.start id ts1] ++ [SpanEvt.start xi xt])
                  (pre ++ SpanEvt.stop id ts :: rest2) := by
                refine List.Sublist.append ?_
                  (List.Sublist.cons _ (List.singleton_sublist.mpr hxr))
                have hsb := histOf_sublist id pre
                rw [h1] at hsb
                exact hsb
              have hsubx : List.Sublist [SpanEvt.start id ts1, SpanEvt.start xi xt] evs := by
                rw [hsplit]
                exact hsubx0
              exact wf_not_two evs hwf _ _ hsubx
                (by simp [sameKind, SpanEvt.isStart, SpanEvt.evtId, hxi])
            · have hxi : xi = id := hxid
              have hsubx : List.Sublist [SpanEvt.stop id ts, SpanEvt.stop xi xt] evs := by
                rw [hsplit]
                have hin2 : List.Sublist [SpanEvt.stop id ts, SpanEvt.stop xi xt]
                    (SpanEvt.stop id ts :: rest2) :=
                  List.Sublist.cons₂ _ (List.singleton_sublist.mpr hxr)
                exact hin2.trans (List.sublist_append_right _ _)
              exact wf_not_two evs hwf _ _ hsubx
                (by simp [sameKind, SpanEvt.isStart, SpanEvt.evtId, hxi])
        have hh : histOf id evs = [SpanEvt.start id ts1, SpanEvt.stop id ts] := by
          rw [hsplit, histOf_append, h1, histOf_cons_self id (SpanEvt.stop id ts) rest2 rfl,
            hrest2]
          rfl
        have hsp2 : evs = (pre ++ [SpanEvt.stop id ts]) ++ rest2 := by
          rw [hsplit]
          simp
        have hin2 : ∀ id2,
            findPartial (removePartial (setPartial ps id (bothPartial id n1 m)) id) id2 =
              expectedPartialFor id2 (histOf id2 (pre ++ [SpanEvt.stop id ts])) := by
          intro id2
          by_cases hq : id2 = id
          · rw [hq, findPartial_remove_self, histOf_append, h1,
              histOf_cons_self id (SpanEvt.stop id ts) [] rfl, histOf_nil]
            rfl
          · rw [findPartial_remove_other _ id id2 hq, findPartial_set_other ps id id2 _ hq,
              hinv id2, histOf_append,
              histOf_cons_other id2 (SpanEvt.stop id ts) [] (fun hh2 => hq (hh2.symm)),
              histOf_nil, List.append_nil]
        have htail := ih (pre ++ [SpanEvt.stop id ts]) _ now hsp2 hin2
        rw [List.map_cons, processAll_cons,
          show evtLine (SpanEvt.stop id ts) = stopLine id ts from rfl,
          processLine_on_stop_started ps now id ts hid m hts n1 hn1 hfind]
        simp only [List.filterMap_cons, pairedEntry_paired evs id ts ts1 hh, hparse1, hparse,
          List.singleton_append, htail]
      · exact absurd (hnostop (SpanEvt.stop id ts2) (by rw [h2]; simp))
          (by simp [SpanEvt.isStart])
      · exact absurd (hnostop (SpanEvt.stop id ts2) (by rw [h3]; simp))
          (by simp [SpanEvt.isStart])
      · exact absurd (hnostop (SpanEvt.stop id ts2) (by rw [h4]; simp))
          (by simp [SpanEvt.isStart])

theorem DecodeChunks_flat (now : Nat) (chunks : List (List Line)) :
    ∀ d : Decoder, (DecodeChunks d now chunks).1 = (processAll d now chunks.flatten).1 ∧
      (DecodeChunks d now chunks).2.1.Perm (processAll d now chunks.flatten).2.1 := by
  induction chunks with
  | nil =>
    intro d
    exact ⟨rfl, by simp [DecodeChunks, processAll]⟩
  | cons c rest ih =>
    intro d
    have h1 : (DecodeLines d now c).1 = (processAll d now c).1 := rfl
    have hih := ih (processAll d now c).1
    constructor
    · show (DecodeChunks (DecodeLines d now c).1 now rest).1 = _
      rw [h1, hih.1, List.flatten_cons, processAll_append]
    · show ((DecodeLines d now c).2.1 ++
          (DecodeChunks (DecodeLines d now c).1 now rest).2.1).Perm _
      rw [List.flatten_cons, processAll_append]
      refine List.Perm.append ?_ ?_
      · exact bubbleSort_perm _ _
      · rw [h1]
        exact hih.2


/-- C2 (amended): for every well-formed set of SpanStart/SpanEnd records
over a fixed set of span ids (non-empty ids, timestamps that scan as
`uint64`, positive on starts, at most one start and one end per id), in any
interleaving order and any partition of the lines into successive
`DecodeLines` calls on one fresh decoder, the concatenated span output is —
up to the per-call sorting — exactly the pairing result: one span per id
whose records arrive start-then-end, and no span for any other id.  In
particular an id whose end precedes its start yields no span even though it
has both records, which corrects the original claim. -/
theorem C2_span_pairing (now : Nat) (chunks : List (List SpanEvt))
    (hwf : wfEvents chunks.flatten = true) :
    (DecodeChunks (NewDecoder 0) now (chunks.map (fun c => c.map evtLine))).2.1.Perm
      (pairedSpans chunks.flatten) := by
  have hfl : ∀ cs : List (List SpanEvt),
      (cs.map (fun c => c.map evtLine)).flatten = cs.flatten.map evtLine := by
    intro cs
    induction cs with
    | nil => rfl
    | cons c r ih =>
      rw [List.map_cons, List.flatten_cons, List.flatten_cons, List.map_append, ih]
  have hd := DecodeChunks_flat now (chunks.map (fun c => c.map evtLine)) (NewDecoder 0)
  have h2 := hd.2
  rw [hfl chunks] at h2
  have hmain := processAll_pairing chunks.flatten hwf chunks.flatten [] [] now rfl
    (fun id => rfl)
  rw [show (NewDecoder 0 : Decoder) = { cutoffTimeNano := 0, spanPartials := [] } from rfl,
    hmain] at h2
  exact h2

/-- C2 witness: a start and an end for span id `aa`, split across two decode
calls, yield exactly the one paired span. -/
theorem C2_span_pairing_witness :
    (DecodeChunks (NewDecoder 0) 0
        (([[SpanEvt.start ("aa") ("1")], [SpanEvt.stop ("aa") ("2")]] :
          List (List SpanEvt)).map (fun c => c.map evtLine))).2.1.Perm
      (pairedSpans ([[SpanEvt.start ("aa") ("1")], [SpanEvt.stop ("aa") ("2")]] :
        List (List SpanEvt)).flatten) :=
  C2_span_pairing 0 [[SpanEvt.start ("aa") ("1")], [SpanEvt.stop ("aa") ("2")]] (by decide)

/-- C2 counterexample to the original claim: span id `ab` has both a
well-formed SpanEnd and a well-formed SpanStart record, but because the end
arrives first the decoder emits no span at all for it. -/
theorem C2_counterexample :
    wfEvents [SpanEvt.stop ("ab") ("2"), SpanEvt.start ("ab") ("1")] = true ∧
    (DecodeChunks (NewDecoder 0) 0
        [[evtLine (SpanEvt.stop ("ab") ("2")), evtLine (SpanEvt.start ("ab") ("1"))]]).2.1 =
      [] := by
  exact ⟨by decide, rfl⟩

end App
